import Mathlib

/-!
Shallow embedding of `src/Programming_Assignment/cpp_code_parser.py`,
a heuristic C++ source-text to control-flow-graph (CFG) builder.

Strings are modelled as `List Char` (`Str`), mirroring Python's
character-indexed scanning.  Python `while` loops that advance an index
become structural or fuel-based recursion; the one loop in the tokenizer
that can genuinely fail to advance (a keyword with no later `(`) makes the
Python program diverge, which the embedding models by returning `none`.
-/

set_option maxRecDepth 10000

abbrev Str := List Char

/-- The character `{`. -/
def lbrace : Char := '\x7b'

/-- The character `}`. -/
def rbrace : Char := '\x7d'

/-- Python `str.isspace` / regex `\s` over the ASCII range:
space, tab, newline, carriage return, vertical tab, form feed. -/
def isWsCh (c : Char) : Bool :=
  c = ' ' || c = '\t' || c = '\n' || c = '\r' || c = '\x0b' || c = '\x0c'

/-- Python `str.isalnum` over the ASCII range: letters and digits. -/
def isAlnumCh (c : Char) : Bool := c.isAlpha || c.isDigit

/-- Regex `\w`: letters, digits and underscore. -/
def isWordCh (c : Char) : Bool := isAlnumCh c || c = '_'

/-- Python `str.strip()`: drop whitespace from both ends. -/
def strip (s : Str) : Str :=
  ((s.dropWhile isWsCh).reverse.dropWhile isWsCh).reverse

/-- Python `"\n".join(...)` over a list of statement lines. -/
def joinNL (ls : List Str) : Str := List.intercalate ['\n'] ls

/-- Python `lines[i]` under the `i < len(lines)` guards of the source
(out-of-range access never happens on the guarded paths). -/
def getLine (lines : List Str) (i : Nat) : Str := lines.getD i []

/-! ## Comment stripping (`parse_cpp_code`, lines 107-108)

`re.sub(r'//.*', '', code)` removes from each `//` to the end of its line;
`re.sub(r'/\x2a.*?\x2a/', '', code, flags=re.DOTALL)` removes each block
comment up to the nearest following close marker, leaving an unclosed
comment opener untouched (the lazy pattern finds no match there). -/

/-- Worker for `removeLineComments`.  Every step consumes at least one
input character, so the fuel `length + 1` supplied by the wrapper is
never exhausted; the fuel only makes the recursion structural. -/
def removeLineGo : Nat → Str → Str
  | 0, s => s
  | _ + 1, [] => []
  | fuel + 1, '/' :: '/' :: rest => removeLineGo fuel (rest.dropWhile (fun c => c ≠ '\n'))
  | fuel + 1, c :: rest => c :: removeLineGo fuel rest

def removeLineComments (s : Str) : Str := removeLineGo (s.length + 1) s

/-- Scan for the first comment-close marker, returning the remainder
after it. -/
def findCommentClose (s : Str) : Option Str :=
  match s with
  | '*' :: '/' :: r => some r
  | _ :: r => findCommentClose r
  | [] => none

/-- Worker for `removeBlockComments`, fuelled like `removeLineGo`. -/
def removeBlockGo : Nat → Str → Str
  | 0, s => s
  | _ + 1, [] => []
  | fuel + 1, '/' :: '*' :: rest =>
    (match findCommentClose rest with
     | some r => removeBlockGo fuel r
     | none => '/' :: removeBlockGo fuel ('*' :: rest))
  | fuel + 1, c :: rest => c :: removeBlockGo fuel rest

def removeBlockComments (s : Str) : Str := removeBlockGo (s.length + 1) s

/-! ## Tokenizer (`split_into_statements`, lines 440-573)

Scans character by character keeping an accumulator `current`.  Keywords
are recognised when the text at the cursor starts with the keyword and the
preceding character (if any) is not alphanumeric; for `if`/`for`/`while`
the scan then searches forward for the first `(` (diverging when there is
none — modelled as `none`) and balances parentheses to form one header
token. -/

/-- The boundary test `i == 0 or not code_block[i-1].isalnum()`, with
`prev` the character before the cursor (or `none` at the start). -/
def kwBoundary : Option Char → Bool
  | none => true
  | some c => !(isAlnumCh c)

/-- The scan `while j < len and code_block[j] != '(': j += 1`: split off
the characters before the first `(` and the remainder after it. -/
def scanToParen (s : Str) : Option (Str × Str) :=
  match s with
  | [] => none
  | '(' :: rest => some ([], rest)
  | c :: rest =>
    match scanToParen rest with
    | none => none
    | some (pre, r) => some (c :: pre, r)

/-- The paren-balancing scan starting just after an opening `(` with
`paren_count = 1`: returns the consumed characters (through the matching
`)`, or everything when unbalanced) and the remainder. -/
def balanceParens (s : Str) (count : Nat) : Str × Str :=
  match s with
  | [] => ([], [])
  | c :: rest =>
    let count' := if c = '(' then count + 1 else if c = ')' then count - 1 else count
    if count' = 0 then ([c], rest)
    else
      let p := balanceParens rest count'
      (c :: p.1, p.2)

/-- Build a header token for `kw` at the cursor: the stripped text from the
keyword through the matching `)`, the last consumed character, and the
remaining input.  `none` when no `(` follows anywhere (Python loops
forever there). -/
def headerToken (kw : Str) (s : Str) : Option (Str × Option Char × Str) :=
  match scanToParen (s.drop kw.length) with
  | none => none
  | some (pre, afterParen) =>
    let p := balanceParens afterParen 1
    let consumed := kw ++ pre ++ '(' :: p.1
    some (strip consumed, consumed.getLast?, p.2)

/-- Flush the accumulator into the token list when its stripped text is
non-blank (`if current.strip(): lines.append(current.strip())`). -/
def flushLines (lines : List Str) (current : Str) : List Str :=
  if strip current = [] then lines else lines ++ [strip current]

def splitGo : Nat → Option Char → Str → Str → List Str → Option (List Str)
  | 0, _, _, _, _ => none
  | _ + 1, _, [], current, lines => some (flushLines lines current)
  | fuel + 1, prev, c :: rest, current, lines =>
    if "if".data.isPrefixOf (c :: rest) && kwBoundary prev then
      match headerToken "if".data (c :: rest) with
      | none => none
      | some (tok, lastc, rest') =>
        splitGo fuel lastc rest' [] (flushLines lines current ++ [tok])
    else if "for".data.isPrefixOf (c :: rest) && kwBoundary prev then
      match headerToken "for".data (c :: rest) with
      | none => none
      | some (tok, lastc, rest') =>
        splitGo fuel lastc rest' [] (flushLines lines current ++ [tok])
    else if "while".data.isPrefixOf (c :: rest) && kwBoundary prev then
      match headerToken "while".data (c :: rest) with
      | none => none
      | some (tok, lastc, rest') =>
        splitGo fuel lastc rest' [] (flushLines lines current ++ [tok])
    else if "do".data.isPrefixOf (c :: rest) && kwBoundary prev then
      splitGo fuel (some 'o') ((c :: rest).drop 2) [] (flushLines lines current ++ ["do".data])
    else if "else".data.isPrefixOf (c :: rest) && kwBoundary prev then
      splitGo fuel (some 'e') ((c :: rest).drop 4) [] (flushLines lines current ++ ["else".data])
    else if c = lbrace ∨ c = rbrace then
      splitGo fuel (some c) rest [] (flushLines lines current ++ [[c]])
    else if c = ';' then
      splitGo fuel (some ';') rest [] (lines ++ [strip (current ++ [';'])])
    else
      splitGo fuel (some c) rest (current ++ [c]) lines

/-- `split_into_statements`: every step of the scan consumes at least one
character, so `length + 1` fuel is never exhausted; `none` only reports
the diverging missing-`(` case. -/
def splitIntoStatements (s : Str) : Option (List Str) :=
  splitGo (s.length + 1) none s [] []

/-! ## Regex condition extractors

The source uses four `re.search` patterns.  Each is embedded as a
leftmost position scan with a deterministic matcher; for these particular
patterns greedy/lazy backtracking reduces to first/last-occurrence scans
inside the no-newline span after the `(` (`.` does not match a newline,
`\s` and `[^)]` do). -/

/-- Match `kw\s*\((.*)\)` at the current position: the group runs to the
last `)` inside the no-newline span after `(`. -/
def matchKwParenAt (kw : Str) (s : Str) : Option Str :=
  if kw.isPrefixOf s then
    match (s.drop kw.length).dropWhile isWsCh with
    | '(' :: rest =>
      let seg := rest.takeWhile (fun c => c ≠ '\n')
      match seg.reverse.dropWhile (fun c => c ≠ ')') with
      | ')' :: before => some before.reverse
      | _ => none
    | _ => none
  else none

/-- `re.search(r'kw\s*\((.*)\)', line)`: try each start position left to
right. -/
def searchKwParen (kw : Str) (s : Str) : Option Str :=
  match s with
  | [] => none
  | _ :: rest =>
    match matchKwParenAt kw s with
    | some g => some g
    | none => searchKwParen kw rest

/-- Match `for\s*\((.*?);(.*?);(.*?)\)` at the current position: the lazy
groups split at the first `;`, the next `;` and the first `)` after that,
all within the no-newline span. -/
def matchForAt (s : Str) : Option (Str × Str × Str) :=
  if "for".data.isPrefixOf s then
    match (s.drop 3).dropWhile isWsCh with
    | '(' :: rest =>
      let g1 := rest.takeWhile (fun c => c ≠ ';' && c ≠ '\n')
      match rest.drop g1.length with
      | ';' :: rest2 =>
        let g2 := rest2.takeWhile (fun c => c ≠ ';' && c ≠ '\n')
        match rest2.drop g2.length with
        | ';' :: rest3 =>
          let g3 := rest3.takeWhile (fun c => c ≠ ')' && c ≠ '\n')
          match rest3.drop g3.length with
          | ')' :: _ => some (g1, g2, g3)
          | _ => none
        | _ => none
      | _ => none
    | _ => none
  else none

/-- `re.search(r'for\s*\((.*?);(.*?);(.*?)\)', line)`. -/
def searchFor (s : Str) : Option (Str × Str × Str) :=
  match s with
  | [] => none
  | _ :: rest =>
    match matchForAt s with
    | some r => some r
    | none => searchFor rest

/-- Scan a reversed span for the first adjacent `;`-then-`)` pair (the
last `);` of the original span), returning the original-order prefix. -/
def findSemiParenRev (s : Str) : Option Str :=
  match s with
  | ';' :: ')' :: r => some r.reverse
  | _ :: r => findSemiParenRev r
  | [] => none

/-- Match `while\s*\((.*)\);` at the current position: the greedy group
runs to the last `)` that is directly followed by `;` inside the
no-newline span. -/
def matchDoWhileAt (s : Str) : Option Str :=
  if "while".data.isPrefixOf s then
    match (s.drop 5).dropWhile isWsCh with
    | '(' :: rest => findSemiParenRev ((rest.takeWhile (fun c => c ≠ '\n')).reverse)
    | _ => none
  else none

/-- `re.search(r'while\s*\((.*)\);', lines[i])`. -/
def searchDoWhileCond (s : Str) : Option Str :=
  match s with
  | [] => none
  | _ :: rest =>
    match matchDoWhileAt s with
    | some g => some g
    | none => searchDoWhileCond rest

/-- Match the function-signature pattern
`(\w+\s+\w+\s*\([^)]*\)\s*` + open-brace + `)` at the current position:
each quantifier here is forced to its maximal munch, so the match is the
deterministic sequence of spans.  Returns the matched text (group 1) and
the remainder after the match (`match.end()`). -/
def matchSigAt (s : Str) : Option (Str × Str) :=
  let p1 := s.span isWordCh
  if p1.1 = [] then none else
  let p2 := p1.2.span isWsCh
  if p2.1 = [] then none else
  let p3 := p2.2.span isWordCh
  if p3.1 = [] then none else
  let p4 := p3.2.span isWsCh
  match p4.2 with
  | '(' :: r5 =>
    let p5 := r5.span (fun c => c ≠ ')')
    match p5.2 with
    | ')' :: r7 =>
      let p6 := r7.span isWsCh
      match p6.2 with
      | c :: r9 =>
        if c = lbrace then
          some (p1.1 ++ p2.1 ++ p3.1 ++ p4.1 ++ '(' :: p5.1 ++ ')' :: p6.1 ++ [lbrace], r9)
        else none
      | [] => none
    | _ => none
  | _ => none

/-- `re.search(r'(\w+\s+\w+\s*\([^)]*\)\s*` + open-brace + `)', code)`. -/
def searchSig (s : Str) : Option (Str × Str) :=
  match s with
  | [] => none
  | _ :: rest =>
    match matchSigAt s with
    | some r => some r
    | none => searchSig rest

/-! ## Block extractors (lines 576-702) -/

/-- The brace-matching loop
`while i < len(lines) and brace_count > 0: ... i += 1`:
returns the index just past the closing brace (or `len`). -/
def braceScanGo : Nat → List Str → Nat → Nat → Nat
  | 0, _, i, _ => i
  | fuel + 1, lines, i, count =>
    if i < lines.length ∧ 0 < count then
      let l := strip (getLine lines i)
      let count' := if l = [lbrace] then count + 1 else if l = [rbrace] then count - 1 else count
      braceScanGo fuel lines (i + 1) count'
    else i

/-- Each iteration advances `i` by one and the loop stops at
`i = len(lines)`, so the fuel `length - i + 1` is never exhausted. -/
def braceScan (lines : List Str) (i : Nat) (count : Nat) : Nat :=
  braceScanGo (lines.length - i + 1) lines i count

/-- Python `'\n'.join(lines[a:b])`. -/
def sliceJoin (lines : List Str) (a b : Nat) : Str :=
  joinNL ((lines.drop a).take (b - a))

/-- `extract_loop_body(lines, start_idx)` (the returned middle `None` of
the Python triple is dropped).  The body-extraction code of
`extract_do_while_body_and_condition` is a verbatim copy of this in the
source. -/
def extractLoopBody (lines : List Str) (startIdx : Nat) : Str × Nat :=
  let i := startIdx + 1
  if i < lines.length ∧ strip (getLine lines i) = [lbrace] then
    let j := braceScan lines (i + 1) 1
    (sliceJoin lines (i + 1) (j - 1), j)
  else if i < lines.length then (getLine lines i, i + 1)
  else ([], i)

/-- `extract_if_else_blocks(lines, start_idx)`. -/
def extractIfElseBlocks (lines : List Str) (startIdx : Nat) : Str × Str × Nat :=
  let p := extractLoopBody lines startIdx
  let ifBlock := p.1
  let i := p.2
  if i < lines.length ∧ strip (getLine lines i) = "else".data then
    let i2 := i + 1
    if i2 < lines.length ∧ "if".data.isPrefixOf (strip (getLine lines i2)) = true then
      (ifBlock, getLine lines i2, i2 + 1)
    else if i2 < lines.length ∧ strip (getLine lines i2) = [lbrace] then
      let j := braceScan lines (i2 + 1) 1
      (ifBlock, sliceJoin lines (i2 + 1) (j - 1), j)
    else if i2 < lines.length then (ifBlock, getLine lines i2, i2 + 1)
    else (ifBlock, [], i2)
  else (ifBlock, [], i)

/-- `extract_do_while_body_and_condition(lines, start_idx)`. -/
def extractDoWhileBodyAndCondition (lines : List Str) (startIdx : Nat) :
    Str × Str × Nat :=
  let p := extractLoopBody lines startIdx
  let body := p.1
  let i := p.2
  if i < lines.length ∧ "while".data.isPrefixOf (strip (getLine lines i)) = true then
    match searchDoWhileCond (getLine lines i) with
    | some g => (body, strip g, i + 1)
    | none => (body, [], i + 1)
  else (body, [], i)

/-! ## Graph model (`Node`, `Edge`, `ControlFlowGraph`, lines 4-39) -/

structure Node where
  id : Nat
  content : Str
  type : Str
deriving Repr, DecidableEq

structure Edge where
  source : Nat
  target : Nat
  condition : Option Bool
deriving Repr, DecidableEq

structure CFG where
  nodes : List Node
  edges : List Edge
  next_id : Nat
deriving Repr, DecidableEq

/-- `ControlFlowGraph.add_node`: append a node with the next id. -/
def addNode (g : CFG) (content ty : Str) : CFG × Node :=
  let n : Node := ⟨g.next_id, content, ty⟩
  ({ nodes := g.nodes ++ [n], edges := g.edges, next_id := g.next_id + 1 }, n)

/-- The edge list update of `ControlFlowGraph.add_edge`: the scan stops at
the first edge with the same (source, target) pair; such an edge is
upgraded in place when its condition is `None` and the new one is not,
otherwise left unchanged; a fresh pair is appended. -/
def addEdgeList (es : List Edge) (s t : Nat) (c : Option Bool) : List Edge :=
  match es with
  | [] => [⟨s, t, c⟩]
  | e :: rest =>
    if e.source = s ∧ e.target = t then
      (if e.condition = none ∧ c ≠ none then { e with condition := c } else e) :: rest
    else e :: addEdgeList rest s t c

/-- `ControlFlowGraph.add_edge` (the returned edge object is unused by
every caller and dropped here). -/
def addEdge (g : CFG) (a b : Node) (c : Option Bool) : CFG :=
  { g with edges := addEdgeList g.edges a.id b.id c }

/-- A loop-stack frame `{"condition": ..., "merge": ...}`. -/
structure LoopCtx where
  condition : Node
  merge : Node
deriving Repr, DecidableEq

/-- Flush the statement buffer (`if statement_buffer:` followed by joining
the lines, adding a statement node and wiring it from `current`). -/
def flushBuffer (g : CFG) (current : Node) (buffer : List Str) : CFG × Node :=
  if buffer = [] then (g, current)
  else
    let an := addNode g (joinNL buffer) "statement".data
    (addEdge an.1 current an.2 none, an.2)

/-! ## Recursive CFG builder (`process_code_block`, lines 151-437)

The Python `while i < len(lines)` loop over tokens becomes `processLines`;
the four structured-statement branches become `ifCase`/`forCase`/
`whileCase`/`doCase`.  Each recursive invocation of `processCodeBlock`
initialises its own empty statement buffer **and its own empty
`loop_stack`** (line 165) — the stack pushed around a loop-body recursion
is local to the caller and is never seen by the callee.  All fuel
arguments only bound the recursion depth (`none` = fuel exhausted or
tokenizer divergence); the Python has no such bound. -/

mutual

def processCodeBlock : Nat → CFG → Node → Str → Option (CFG × Node)
  | 0, _, _, _ => none
  | fuel + 1, cfg, entryNode, codeBlock =>
  if strip codeBlock = [] then some (cfg, entryNode)
  else
    match splitIntoStatements codeBlock with
    | none => none
    | some lines => processLines fuel cfg entryNode lines 0 [] []
termination_by structural fuel => fuel

def processLines : Nat → CFG → Node → List Str → Nat → List Str → List LoopCtx →
    Option (CFG × Node)
  | 0, _, _, _, _, _, _ => none
  | fuel + 1, cfg, current, lines, i, buffer, stack =>
  if i < lines.length then
    let line := strip (getLine lines i)
    if line = [] then
      processLines fuel cfg current lines (i + 1) buffer stack
    else if line = "continue;".data then
      match stack with
      | [] => processLines fuel cfg current lines (i + 1) buffer stack
      | ctx :: _ =>
        processLines fuel (addEdge cfg current ctx.condition none) current lines (i + 1)
          buffer stack
    else if line = "break;".data then
      match stack with
      | [] => processLines fuel cfg current lines (i + 1) buffer stack
      | ctx :: _ =>
        processLines fuel (addEdge cfg current ctx.merge none) current lines (i + 1)
          buffer stack
    else if "if".data.isPrefixOf line then
      match ifCase fuel cfg current buffer lines i with
      | none => none
      | some (cfg1, cur1, i1) => processLines fuel cfg1 cur1 lines i1 [] stack
    else if "for".data.isPrefixOf line then
      match forCase fuel cfg current buffer lines i stack with
      | none => none
      | some (cfg1, cur1, i1) => processLines fuel cfg1 cur1 lines i1 [] stack
    else if "while".data.isPrefixOf line && !("while(".data.isPrefixOf line) then
      match whileCase fuel cfg current buffer lines i stack with
      | none => none
      | some (cfg1, cur1, i1) => processLines fuel cfg1 cur1 lines i1 [] stack
    else if "do".data.isPrefixOf line then
      match doCase fuel cfg current buffer lines i stack with
      | none => none
      | some (cfg1, cur1, i1) => processLines fuel cfg1 cur1 lines i1 [] stack
    else if ¬("else".data.isPrefixOf line) ∧ line ≠ [lbrace] ∧ line ≠ [rbrace] then
      processLines fuel cfg current lines (i + 1) (buffer ++ [line]) stack
    else
      processLines fuel cfg current lines (i + 1) buffer stack
  else
    some (flushBuffer cfg current buffer)
termination_by structural fuel => fuel

/-- One branch block of the `if` handler.  The Python duplicates this
code verbatim for the if-branch (`label = "If Branch Entry"`, `cnd =
True`) and the else-branch (`label = "Else Branch Entry"`,
`cnd = False`): a non-empty branch body gets an entry node wired from the
condition with condition `cnd`, is processed recursively, and its exit is
wired to the merge node; an empty branch wires condition to merge
directly. -/
def ifBranch : Nat → CFG → Node → Node → Str → Bool → Str → Option CFG
  | 0, _, _, _, _, _, _ => none
  | fuel + 1, g, condN, mergeN, label, cnd, body =>
    if body ≠ [] then
      let ae := addNode g label "statement".data
      let g2 := addEdge ae.1 condN ae.2 (some cnd)
      match processCodeBlock fuel g2 ae.2 body with
      | none => none
      | some (g3, last) => some (addEdge g3 last mergeN none)
    else some (addEdge g condN mergeN (some cnd))
termination_by structural fuel => fuel

def ifCase : Nat → CFG → Node → List Str → List Str → Nat → Option (CFG × Node × Nat)
  | 0, _, _, _, _, _ => none
  | fuel + 1, cfg, current, buffer, lines, i =>
  let fc := flushBuffer cfg current buffer
  match searchKwParen "if".data (strip (getLine lines i)) with
  | none => some (fc.1, fc.2, i + 1)
  | some grp =>
    let an := addNode fc.1 (strip grp) "condition".data
    let cfg2 := addEdge an.1 fc.2 an.2 none
    let ext := extractIfElseBlocks lines i
    let am := addNode cfg2 "After If-Else (Merge Node)".data "merge".data
    match ifBranch fuel am.1 an.2 am.2 "If Branch Entry".data true ext.1 with
    | none => none
    | some cfg6 =>
      match ifBranch fuel cfg6 an.2 am.2 "Else Branch Entry".data false ext.2.1 with
      | none => none
      | some cfg9 => some (cfg9, am.2, ext.2.2)
termination_by structural fuel => fuel

/-- The loop-body block of the `for` handler (lines 286-312): entry node
and true-edge for a non-empty body, recursive processing, an update node
between the body exit and the back-edge when the update clause is
non-empty, and the degenerate wirings for empty bodies. -/
def forBody : Nat → CFG → Node → Str → Str → Option CFG
  | 0, _, _, _, _ => none
  | fuel + 1, g, condN, updateExpr, body =>
    if body ≠ [] then
      let ae := addNode g "For Loop Body Entry".data "statement".data
      let g2 := addEdge ae.1 condN ae.2 (some true)
      match processCodeBlock fuel g2 ae.2 body with
      | none => none
      | some (g3, last) =>
        if updateExpr ≠ [] then
          let au := addNode g3 updateExpr "statement".data
          let g4 := addEdge au.1 last au.2 none
          some (addEdge g4 au.2 condN none)
        else some (addEdge g3 last condN none)
    else
      if updateExpr ≠ [] then
        let au := addNode g updateExpr "statement".data
        let g2 := addEdge au.1 condN au.2 (some true)
        some (addEdge g2 au.2 condN none)
      else some (addEdge g condN condN (some true))
termination_by structural fuel => fuel

def forCase : Nat → CFG → Node → List Str → List Str → Nat → List LoopCtx →
    Option (CFG × Node × Nat)
  | 0, _, _, _, _, _, _ => none
  | fuel + 1, cfg, current, buffer, lines, i, stack =>
  let fc := flushBuffer cfg current buffer
  match searchFor (strip (getLine lines i)) with
  | none => some (fc.1, fc.2, i + 1)
  | some (g1, g2, g3) =>
    let initExpr := strip g1
    let conditionExpr := if strip g2 = [] then "true".data else strip g2
    let updateExpr := strip g3
    let ic : CFG × Node :=
      if initExpr ≠ [] then
        let ai := addNode fc.1 initExpr "statement".data
        (addEdge ai.1 fc.2 ai.2 none, ai.2)
      else (fc.1, fc.2)
    let an := addNode ic.1 conditionExpr "loop_condition".data
    let cfg1 := addEdge an.1 ic.2 an.2 none
    let ext := extractLoopBody lines i
    let am := addNode cfg1 "After For Loop (Merge Node)".data "merge".data
    let cfg2 := addEdge am.1 an.2 am.2 (some false)
    let _pushed := LoopCtx.mk an.2 am.2 :: stack
    match forBody fuel cfg2 an.2 updateExpr ext.1 with
    | none => none
    | some cfg6 => some (cfg6, am.2, ext.2)
termination_by structural fuel => fuel

/-- The loop-body block of the `while` handler (lines 352-365): entry
node and true-edge for a non-empty body, recursive processing and a
back-edge from the body exit to the condition; a self-loop true-edge for
an empty body. -/
def whileBody : Nat → CFG → Node → Str → Option CFG
  | 0, _, _, _ => none
  | fuel + 1, g, condN, body =>
    if body ≠ [] then
      let ae := addNode g "While Loop Body Entry".data "statement".data
      let g2 := addEdge ae.1 condN ae.2 (some true)
      match processCodeBlock fuel g2 ae.2 body with
      | none => none
      | some (g3, last) => some (addEdge g3 last condN none)
    else some (addEdge g condN condN (some true))
termination_by structural fuel => fuel

def whileCase : Nat → CFG → Node → List Str → List Str → Nat → List LoopCtx →
    Option (CFG × Node × Nat)
  | 0, _, _, _, _, _, _ => none
  | fuel + 1, cfg, current, buffer, lines, i, stack =>
  let fc := flushBuffer cfg current buffer
  match searchKwParen "while".data (strip (getLine lines i)) with
  | none => some (fc.1, fc.2, i + 1)
  | some grp =>
    let an := addNode fc.1 (strip grp) "loop_condition".data
    let cfg1 := addEdge an.1 fc.2 an.2 none
    let ext := extractLoopBody lines i
    let am := addNode cfg1 "After Loop (Merge Node)".data "merge".data
    let cfg2 := addEdge am.1 an.2 am.2 (some false)
    let _pushed := LoopCtx.mk an.2 am.2 :: stack
    match whileBody fuel cfg2 an.2 ext.1 with
    | none => none
    | some cfg5 => some (cfg5, am.2, ext.2)
termination_by structural fuel => fuel

def doCase : Nat → CFG → Node → List Str → List Str → Nat → List LoopCtx →
    Option (CFG × Node × Nat)
  | 0, _, _, _, _, _, _ => none
  | fuel + 1, cfg, current, buffer, lines, i, stack =>
  let fc := flushBuffer cfg current buffer
  let ext := extractDoWhileBodyAndCondition lines i
  let ae := addNode fc.1 "do".data "statement".data
  let cfg1 := addEdge ae.1 fc.2 ae.2 none
  let r : Option (CFG × Node) :=
    if ext.1 ≠ [] then processCodeBlock fuel cfg1 ae.2 ext.1
    else some (cfg1, ae.2)
  match r with
  | none => none
  | some (cfg2, loopLast) =>
    let ac := addNode cfg2 (if ext.2.1 = [] then "x < 5".data else ext.2.1) "loop_condition".data
    let cfg3 := addEdge ac.1 loopLast ac.2 none
    let am := addNode cfg3 "After Do-While Loop (Merge Node)".data "merge".data
    let _pushed := LoopCtx.mk ac.2 am.2 :: stack
    let cfg4 := addEdge am.1 ac.2 ae.2 (some true)
    let cfg5 := addEdge cfg4 ac.2 am.2 (some false)
    some (cfg5, am.2, ext.2.2)
termination_by structural fuel => fuel

end

/-! ## Top-level construction (`parse_cpp_code`, lines 105-148) -/

/-- The brace-balancing scan over the function body (`brace_count = 1`,
`body_end = 0` when the braces never rebalance, `body[:body_end]`). -/
def findBodyEndAux (s : Str) (count : Nat) : Option Str :=
  match s with
  | [] => none
  | c :: rest =>
    let count' := if c = lbrace then count + 1 else if c = rbrace then count - 1 else count
    if count' = 0 then some []
    else
      match findBodyEndAux rest count' with
      | none => none
      | some l => some (c :: l)

def takeBalancedBody (s : Str) : Str := (findBodyEndAux s 1).getD []

/-- `parse_cpp_code(code)`. -/
def parseCppCode (fuel : Nat) (code : Str) : Option CFG :=
  let code1 := removeBlockComments (removeLineComments code)
  let g0 : CFG := { nodes := [], edges := [], next_id := 0 }
  let a0 := addNode g0 "START".data "start".data
  match searchSig code1 with
  | none => some a0.1
  | some (sig, rest) =>
    let af := addNode a0.1 sig "statement".data
    let cfg1 := addEdge af.1 a0.2 af.2 none
    let functionBody := strip (takeBalancedBody rest)
    match processCodeBlock fuel cfg1 af.2 functionBody with
    | none => none
    | some (cfg2, lastNode) =>
      let ae := addNode cfg2 "END".data "end".data
      some (addEdge ae.1 lastNode ae.2 none)

/-! ## Concrete programs used by the claim theorems -/

/-- The empty graph, used as the default when destructing `Option CFG`
results that are proved to be `some`. -/
def emptyCFG : CFG := ⟨[], [], 0⟩

/-- A function whose while-loop body is exactly `break;`. -/
def breakInWhileInput : Str :=
  "int f() \x7b while (x < 5) \x7b break; \x7d \x7d".data

def breakInWhileGraph : CFG := (parseCppCode 100 breakInWhileInput).getD emptyCFG

/-- A `break;` inside a do-while that is itself inside a while loop. -/
def breakInDoInWhileInput : Str :=
  "int f() \x7b while (a < 2) \x7b do \x7b break; \x7d while (b < 3); \x7d \x7d".data

def breakInDoInWhileGraph : CFG := (parseCppCode 100 breakInDoInWhileInput).getD emptyCFG

/-- A while header with no whitespace between `while` and `(`. -/
def whileNoSpaceInput : Str := "int f() \x7b while(x < 5) \x7b \x7d \x7d".data

def whileNoSpaceGraph : CFG := (parseCppCode 100 whileNoSpaceInput).getD emptyCFG

/-- A call of an identifier that merely starts with the keyword `do`. -/
def doSomethingInput : Str := "int f() \x7b doSomething(); \x7d".data

def doSomethingGraph : CFG := (parseCppCode 100 doSomethingInput).getD emptyCFG

/-- The if/else example of the spec, inside a function. -/
def ifElseInput : Str :=
  "int main() \x7b if (x > 5) \x7b x = x + 1; \x7d else \x7b x = x - 1; \x7d \x7d".data

def ifElseGraph : CFG := (parseCppCode 100 ifElseInput).getD emptyCFG

/-- C1 (code bug): the claim — and the spec's "(initially inherited)
loop-context stack" — say a `break;` in a loop body adds an edge from the
then-current node to the innermost enclosing loop's merge node.  The code
initialises `loop_stack = []` afresh in every recursive invocation
(line 165), and loop bodies are always processed by a recursive call, so
the stack pushed around the body recursion is never visible to the
`break;`/`continue;` handlers and no such edge is ever created.  On a
while loop whose body is exactly `break;` (condition node 2, merge node 3,
body-entry node 4) the resulting graph has no edge from node 4 to merge
node 3; the only edge into the merge node is the loop's false-edge. -/
theorem break_in_while_adds_no_edge :
    parseCppCode 100 breakInWhileInput =
      some ⟨[⟨0, "START".data, "start".data⟩,
             ⟨1, "int f() \x7b".data, "statement".data⟩,
             ⟨2, "x < 5".data, "loop_condition".data⟩,
             ⟨3, "After Loop (Merge Node)".data, "merge".data⟩,
             ⟨4, "While Loop Body Entry".data, "statement".data⟩,
             ⟨5, "END".data, "end".data⟩],
            [⟨0, 1, none⟩, ⟨1, 2, none⟩, ⟨2, 3, some false⟩, ⟨2, 4, some true⟩,
             ⟨4, 2, none⟩, ⟨3, 5, none⟩], 6⟩ ∧
    (⟨4, 3, none⟩ : Edge) ∉ breakInWhileGraph.edges ∧
    breakInWhileGraph.edges.filter (fun e => e.target = 3) = [⟨2, 3, some false⟩] := by
  decide

/-- C5 (code bug): the do-while branch pushes its loop context only after
the body recursion has returned, so the `break;` in the do-body (processed
from the `do` entry node 5) cannot target the do-while's own condition
node 6 or merge node 7 — but it does not resolve against the enclosing
while loop either (its merge node is 3): the body is processed by a
recursive invocation whose `loop_stack` starts empty, so the `break;` adds
no edge at all, where the claim expects an edge into the enclosing while's
merge node. -/
theorem break_in_do_while_body_adds_no_edge :
    parseCppCode 100 breakInDoInWhileInput =
      some ⟨[⟨0, "START".data, "start".data⟩,
             ⟨1, "int f() \x7b".data, "statement".data⟩,
             ⟨2, "a < 2".data, "loop_condition".data⟩,
             ⟨3, "After Loop (Merge Node)".data, "merge".data⟩,
             ⟨4, "While Loop Body Entry".data, "statement".data⟩,
             ⟨5, "do".data, "statement".data⟩,
             ⟨6, "x < 5".data, "loop_condition".data⟩,
             ⟨7, "After Do-While Loop (Merge Node)".data, "merge".data⟩,
             ⟨8, ";".data, "statement".data⟩,
             ⟨9, "END".data, "end".data⟩],
            [⟨0, 1, none⟩, ⟨1, 2, none⟩, ⟨2, 3, some false⟩, ⟨2, 4, some true⟩,
             ⟨4, 5, none⟩, ⟨5, 6, none⟩, ⟨6, 5, some true⟩, ⟨6, 7, some false⟩,
             ⟨7, 8, none⟩, ⟨8, 2, none⟩, ⟨3, 9, none⟩], 10⟩ ∧
    (⟨5, 3, none⟩ : Edge) ∉ breakInDoInWhileGraph.edges ∧
    breakInDoInWhileGraph.edges.filter (fun e => e.target = 3) = [⟨2, 3, some false⟩] ∧
    breakInDoInWhileGraph.edges.filter (fun e => e.target = 6) = [⟨5, 6, none⟩] ∧
    breakInDoInWhileGraph.edges.filter (fun e => e.target = 7) = [⟨6, 7, some false⟩] := by
  decide

/-- C3 (counterexample): a `while(cond)` header with no whitespace before
the `(` is not handled as a while loop — the dispatch requires
`line.startswith('while') and not line.startswith('while(')` (line 323) —
so no `loop_condition` node, no conditional edge and no self-loop is
created; the whole header token is buffered and flushed as a plain
statement node. -/
theorem while_no_space_is_plain_statement :
    (parseCppCode 100 whileNoSpaceInput).isSome = true ∧
    whileNoSpaceGraph.nodes.filter (fun n => n.type = "loop_condition".data) = [] ∧
    whileNoSpaceGraph.edges.filter (fun e => e.condition ≠ none) = [] ∧
    (⟨2, "while(x < 5)".data, "statement".data⟩ : Node) ∈ whileNoSpaceGraph.nodes ∧
    whileNoSpaceGraph.edges = [⟨0, 1, none⟩, ⟨1, 2, none⟩, ⟨2, 3, none⟩] := by
  decide

/-- C4 (counterexample): the tokenizer checks only the left boundary
(`i == 0 or not code_block[i-1].isalnum()`), so the keyword `do` at the
start of the identifier `doSomething` is emitted as a bare `do` keyword
token rather than staying in the accumulated statement; downstream the
builder then fabricates a do-while loop with the placeholder condition
`x < 5` out of a plain call statement. -/
theorem doSomething_emits_do_token :
    splitIntoStatements "doSomething();".data = some ["do".data, "Something();".data] ∧
    (parseCppCode 100 doSomethingInput).isSome = true ∧
    (⟨2, "do".data, "statement".data⟩ : Node) ∈ doSomethingGraph.nodes ∧
    (⟨4, "x < 5".data, "loop_condition".data⟩ : Node) ∈ doSomethingGraph.nodes ∧
    (⟨4, 2, some true⟩ : Edge) ∈ doSomethingGraph.edges := by
  decide

/-- C6: for `if (x > 5) ... else ...` inside a function the condition node
(2) has exactly one outgoing true-edge, to the if-branch entry node (4),
and exactly one outgoing false-edge, to the else-branch entry node (6);
there is exactly one merge node (3) and it has exactly two incoming edges,
one from the last node of each branch path (5 and 7, which are wired from
the respective entry nodes). -/
theorem if_else_shape :
    (parseCppCode 100 ifElseInput).isSome = true ∧
    (ifElseGraph.nodes.filter (fun n => n.type = "condition".data)).map (fun n => n.id) = [2] ∧
    ifElseGraph.edges.filter (fun e => e.source = 2 ∧ e.condition = some true) =
      [⟨2, 4, some true⟩] ∧
    (⟨4, "If Branch Entry".data, "statement".data⟩ : Node) ∈ ifElseGraph.nodes ∧
    ifElseGraph.edges.filter (fun e => e.source = 2 ∧ e.condition = some false) =
      [⟨2, 6, some false⟩] ∧
    (⟨6, "Else Branch Entry".data, "statement".data⟩ : Node) ∈ ifElseGraph.nodes ∧
    (ifElseGraph.nodes.filter (fun n => n.type = "merge".data)).map (fun n => n.id) = [3] ∧
    ifElseGraph.edges.filter (fun e => e.target = 3) = [⟨5, 3, none⟩, ⟨7, 3, none⟩] ∧
    (⟨4, 5, none⟩ : Edge) ∈ ifElseGraph.edges ∧
    (⟨6, 7, none⟩ : Edge) ∈ ifElseGraph.edges := by
  decide

/-- C9: when the function-signature pattern matches nowhere in the
comment-stripped input, `parse_cpp_code` returns a graph holding exactly
the START node with id 0 and no edges. -/
theorem no_signature_start_only (fuel : Nat) (code : Str)
    (h : searchSig (removeBlockComments (removeLineComments code)) = none) :
    parseCppCode fuel code = some ⟨[⟨0, "START".data, "start".data⟩], [], 1⟩ := by
  simp [parseCppCode, addNode, h]

/-- Witness for C9 at the concrete input `hello { } ;`. -/
theorem no_signature_start_only_witness :
    searchSig (removeBlockComments (removeLineComments "hello \x7b \x7d ;".data)) = none ∧
    parseCppCode 7 "hello \x7b \x7d ;".data =
      some ⟨[⟨0, "START".data, "start".data⟩], [], 1⟩ :=
  ⟨by decide, no_signature_start_only 7 "hello \x7b \x7d ;".data (by decide)⟩

/-! ## C2: the edge-insertion invariant of `add_edge` -/

/-- At most one edge per ordered (source, target) pair. -/
def UniquePairs (es : List Edge) : Prop :=
  es.Pairwise (fun a b => ¬(a.source = b.source ∧ a.target = b.target))

/-- Run a sequence of `add_edge` calls (source id, target id, condition)
against one graph's edge list, starting from the empty list a fresh
`ControlFlowGraph` has. -/
def runEdges (calls : List (Nat × Nat × Option Bool)) : List Edge :=
  calls.foldl (fun es c => addEdgeList es c.1 c.2.1 c.2.2) []

theorem mem_addEdgeList {es : List Edge} {s t : Nat} {c : Option Bool} {e' : Edge}
    (h : e' ∈ addEdgeList es s t c) : e' ∈ es ∨ (e'.source = s ∧ e'.target = t) := by
  induction es with
  | nil =>
    simp [addEdgeList] at h
    subst h
    right
    exact ⟨rfl, rfl⟩
  | cons e rest ih =>
    simp only [addEdgeList] at h
    by_cases hp : e.source = s ∧ e.target = t
    · rw [if_pos hp] at h
      rcases List.mem_cons.1 h with h1 | h1
      · by_cases hc : e.condition = none ∧ c ≠ none
        · rw [if_pos hc] at h1
          subst h1
          right
          exact ⟨hp.1, hp.2⟩
        · rw [if_neg hc] at h1
          left
          rw [h1]
          exact List.mem_cons_self e rest
      · left
        exact List.mem_cons_of_mem _ h1
    · rw [if_neg hp] at h
      rcases List.mem_cons.1 h with h1 | h1
      · left
        rw [h1]
        exact List.mem_cons_self e rest
      · rcases ih h1 with h2 | h2
        · left
          exact List.mem_cons_of_mem _ h2
        · right
          exact h2

theorem addEdgeList_fresh (es : List Edge) (s t : Nat) (c : Option Bool)
    (h : ∀ e ∈ es, ¬(e.source = s ∧ e.target = t)) :
    addEdgeList es s t c = es ++ [⟨s, t, c⟩] := by
  induction es with
  | nil => simp [addEdgeList]
  | cons e rest ih =>
    have he : ¬(e.source = s ∧ e.target = t) := h e (List.mem_cons_self e rest)
    simp only [addEdgeList, if_neg he, List.cons_append, List.cons.injEq, true_and]
    exact ih (fun e' he' => h e' (List.mem_cons_of_mem _ he'))

theorem addEdgeList_found (pre : List Edge) (e : Edge) (post : List Edge)
    (s t : Nat) (c : Option Bool)
    (hpre : ∀ e' ∈ pre, ¬(e'.source = s ∧ e'.target = t))
    (hs : e.source = s) (ht : e.target = t) :
    addEdgeList (pre ++ e :: post) s t c =
      pre ++ (if e.condition = none ∧ c ≠ none then { e with condition := c } else e) :: post := by
  induction pre with
  | nil =>
    simp only [List.nil_append, addEdgeList, if_pos (And.intro hs ht)]
  | cons p pre' ih =>
    have hp : ¬(p.source = s ∧ p.target = t) := hpre p (List.mem_cons_self p pre')
    simp only [List.cons_append, addEdgeList, if_neg hp, List.cons.injEq, true_and]
    exact ih (fun e' he' => hpre e' (List.mem_cons_of_mem _ he'))

theorem uniquePairs_addEdgeList (es : List Edge) (s t : Nat) (c : Option Bool)
    (h : UniquePairs es) : UniquePairs (addEdgeList es s t c) := by
  induction es with
  | nil =>
    simp [addEdgeList, UniquePairs]
  | cons e rest ih =>
    rcases (List.pairwise_cons.1 h) with ⟨he, hrest⟩
    by_cases hp : e.source = s ∧ e.target = t
    · simp only [addEdgeList, if_pos hp]
      by_cases hc : e.condition = none ∧ c ≠ none
      · rw [if_pos hc]
        exact List.pairwise_cons.2 ⟨fun b hb => he b hb, hrest⟩
      · rw [if_neg hc]
        exact List.pairwise_cons.2 ⟨he, hrest⟩
    · simp only [addEdgeList, if_neg hp]
      refine List.pairwise_cons.2 ⟨?_, ih hrest⟩
      intro b hb
      rcases mem_addEdgeList hb with h1 | h1
      · exact he b h1
      · intro hcon
        exact hp ⟨hcon.1.trans h1.1, hcon.2.trans h1.2⟩

/-- C2: over any sequence of `add_edge` calls on one graph at most one
edge exists per ordered (source, target) pair; a call for a fresh pair
appends the edge at the end; a call for an existing pair whose stored
condition is `none` while the requested one is not upgrades that edge in
place, and in every other existing-pair combination leaves the edge list
completely unchanged. -/
theorem add_edge_dedup_upgrade :
    (∀ calls : List (Nat × Nat × Option Bool), UniquePairs (runEdges calls)) ∧
    (∀ (es : List Edge) (s t : Nat) (c : Option Bool), (∀ e ∈ es, ¬(e.source = s ∧ e.target = t)) →
      addEdgeList es s t c = es ++ [⟨s, t, c⟩]) ∧
    (∀ (pre : List Edge) (e : Edge) (post : List Edge) (c : Option Bool),
      UniquePairs (pre ++ e :: post) →
      (e.condition = none ∧ c ≠ none →
        addEdgeList (pre ++ e :: post) e.source e.target c =
          pre ++ ⟨e.source, e.target, c⟩ :: post) ∧
      (¬(e.condition = none ∧ c ≠ none) →
        addEdgeList (pre ++ e :: post) e.source e.target c = pre ++ e :: post)) := by
  refine ⟨?_, addEdgeList_fresh, ?_⟩
  · intro calls
    have main : ∀ (cs : List (Nat × Nat × Option Bool)) (es : List Edge), UniquePairs es →
        UniquePairs (cs.foldl (fun es c => addEdgeList es c.1 c.2.1 c.2.2) es) := by
      intro cs
      induction cs with
      | nil => intro es h; exact h
      | cons c cs' ih =>
        intro es h
        exact ih _ (uniquePairs_addEdgeList es c.1 c.2.1 c.2.2 h)
    exact main calls [] (by simp [UniquePairs])
  · intro pre e post c hu
    have hpre : ∀ e' ∈ pre, ¬(e'.source = e.source ∧ e'.target = e.target) := by
      intro e' he'
      have := (List.pairwise_append.1 hu).2.2 e' he' e (List.mem_cons_self e post)
      exact this
    have hfound := addEdgeList_found pre e post e.source e.target c hpre rfl rfl
    constructor
    · intro hc
      rw [hfound, if_pos hc]
    · intro hc
      rw [hfound, if_neg hc]

/-- Witness for C2: a fresh pair is appended, a `none` edge is upgraded by
a later `true` request, and a `true` edge is left unchanged by a later
`false` request. -/
theorem add_edge_dedup_upgrade_witness :
    UniquePairs (runEdges [(0, 1, none), (0, 1, some true), (2, 3, some false)]) ∧
    addEdgeList [⟨0, 1, some true⟩] 2 3 none = [⟨0, 1, some true⟩, ⟨2, 3, none⟩] ∧
    addEdgeList [⟨0, 1, none⟩] 0 1 (some true) = [⟨0, 1, some true⟩] ∧
    addEdgeList [⟨0, 1, some true⟩] 0 1 (some false) = [⟨0, 1, some true⟩] :=
  ⟨add_edge_dedup_upgrade.1 _,
   add_edge_dedup_upgrade.2.1 _ 2 3 none (by decide),
   (add_edge_dedup_upgrade.2.2 [] ⟨0, 1, none⟩ [] (some true)
     (by simp [UniquePairs])).1 (by decide),
   (add_edge_dedup_upgrade.2.2 [] ⟨0, 1, some true⟩ [] (some false)
     (by simp [UniquePairs])).2 (by decide)⟩

/-! ## C4 (amended), C8, C10: tokenizer boundary and break/continue steps -/

/-- C4 (amended): the tokenizer's keyword recognition checks only the left
boundary.  When the preceding character is alphanumeric no keyword branch
can fire, so the step treats the cursor character as brace, semicolon or
plain accumulated text — a keyword strictly inside an identifier is never
emitted.  A keyword that merely starts a longer identifier is emitted
(`doSomething(); x = 1;` tokenizes as `do`, `Something();`, `x = 1;`),
while one preceded by an alphanumeric character stays in the statement
(`x = miffy(3);` stays one token). -/
theorem keyword_left_boundary_only :
    (∀ (fuel : Nat) (c h : Char) (t cur : Str) (lines : List Str),
      isAlnumCh c = true →
      splitGo (fuel + 1) (some c) (h :: t) cur lines =
        if h = lbrace ∨ h = rbrace then
          splitGo fuel (some h) t [] (flushLines lines cur ++ [[h]])
        else if h = ';' then
          splitGo fuel (some ';') t [] (lines ++ [strip (cur ++ [';'])])
        else splitGo fuel (some h) t (cur ++ [h]) lines) ∧
    splitIntoStatements "x = miffy(3);".data = some ["x = miffy(3);".data] ∧
    splitIntoStatements "doSomething(); x = 1;".data =
      some ["do".data, "Something();".data, "x = 1;".data] := by
  refine ⟨?_, by decide, by decide⟩
  intro fuel c h t cur lines hc
  simp [splitGo, kwBoundary, hc]

/-- Witness for C4 (amended): the boundary step at a concrete state. -/
theorem keyword_left_boundary_only_witness :
    isAlnumCh 'x' = true ∧
    splitGo 1 (some 'x') ('d' :: 'o' :: []) "ab".data [] =
      splitGo 0 (some 'd') ('o' :: []) ("ab".data ++ ['d']) [] :=
  ⟨by decide, by
    have h := keyword_left_boundary_only.1 0 'x' 'd' ('o' :: []) "ab".data [] (by decide)
    simpa using h⟩

/-- C10: a `break;` or `continue;` token reached while the invocation's
loop-context stack is empty is consumed with no effect at all: the graph,
the current node and the statement buffer are untouched and the token is
not appended to the buffer (so it reaches no statement node's content);
processing simply continues at the next token. -/
theorem break_continue_empty_stack_no_effect (fuel : Nat) (cfg : CFG) (current : Node)
    (lines : List Str) (i : Nat) (buffer : List Str)
    (hi : i < lines.length)
    (hline : strip (getLine lines i) = "break;".data ∨
      strip (getLine lines i) = "continue;".data) :
    processLines (fuel + 1) cfg current lines i buffer [] =
      processLines fuel cfg current lines (i + 1) buffer [] := by
  rcases hline with hb | hb <;>
    simp +decide [processLines, hi, hb]

/-- Witness for C10 at a concrete state. -/
theorem break_continue_empty_stack_no_effect_witness :
    (0 : Nat) < (["break;".data] : List Str).length ∧
    processLines 1 emptyCFG ⟨0, [], []⟩ ["break;".data] 0 [] [] =
      processLines 0 emptyCFG ⟨0, [], []⟩ ["break;".data] 1 [] [] :=
  ⟨by decide,
   break_continue_empty_stack_no_effect 0 emptyCFG ⟨0, [], []⟩ ["break;".data] 0 []
     (by decide) (Or.inl (by decide))⟩

/-- Well-formedness of a graph under construction: every stored node id
and every edge endpoint is below `next_id`.  Holds for every graph the
builder produces, since `add_edge` is only ever called on nodes returned
by `add_node`. -/
def WFCfg (g : CFG) : Prop :=
  (∀ n ∈ g.nodes, n.id < g.next_id) ∧
  (∀ e ∈ g.edges, e.source < g.next_id ∧ e.target < g.next_id)

/-- C8: `break;`/`continue;` do not advance `current` and do not touch the
buffer — the step only (possibly) adds one edge and moves to the next
token with the same current node and buffer; a later plain token is simply
appended to the buffer; and the end-of-block flush wires the buffered
statements into one statement node whose incoming edge comes from the
pre-break `current` — so dead code after `break;`/`continue;` is wired
into the graph as if reachable. -/
theorem dead_code_after_break_still_wired :
    (∀ (fuel : Nat) (cfg : CFG) (cur : Node) (lines : List Str) (i : Nat)
        (buf : List Str) (stk : List LoopCtx),
      i < lines.length → strip (getLine lines i) = "break;".data →
      processLines (fuel + 1) cfg cur lines i buf stk =
        processLines fuel
          (match stk with
           | [] => cfg
           | ctx :: _ => addEdge cfg cur ctx.merge none) cur lines (i + 1) buf stk) ∧
    (∀ (fuel : Nat) (cfg : CFG) (cur : Node) (lines : List Str) (i : Nat)
        (buf : List Str) (stk : List LoopCtx),
      i < lines.length → strip (getLine lines i) = "continue;".data →
      processLines (fuel + 1) cfg cur lines i buf stk =
        processLines fuel
          (match stk with
           | [] => cfg
           | ctx :: _ => addEdge cfg cur ctx.condition none) cur lines (i + 1) buf stk) ∧
    (∀ (fuel : Nat) (cfg : CFG) (cur : Node) (lines : List Str) (i : Nat)
        (buf : List Str) (stk : List LoopCtx),
      i < lines.length →
      strip (getLine lines i) ≠ [] →
      strip (getLine lines i) ≠ "continue;".data →
      strip (getLine lines i) ≠ "break;".data →
      "if".data.isPrefixOf (strip (getLine lines i)) = false →
      "for".data.isPrefixOf (strip (getLine lines i)) = false →
      ("while".data.isPrefixOf (strip (getLine lines i)) &&
        !("while(".data.isPrefixOf (strip (getLine lines i)))) = false →
      "do".data.isPrefixOf (strip (getLine lines i)) = false →
      "else".data.isPrefixOf (strip (getLine lines i)) = false →
      strip (getLine lines i) ≠ [lbrace] →
      strip (getLine lines i) ≠ [rbrace] →
      processLines (fuel + 1) cfg cur lines i buf stk =
        processLines fuel cfg cur lines (i + 1) (buf ++ [strip (getLine lines i)]) stk) ∧
    (∀ (fuel : Nat) (cfg : CFG) (cur : Node) (lines : List Str) (i : Nat)
        (buf : List Str) (stk : List LoopCtx),
      ¬(i < lines.length) → buf ≠ [] → WFCfg cfg →
      processLines (fuel + 1) cfg cur lines i buf stk = some (flushBuffer cfg cur buf) ∧
      (flushBuffer cfg cur buf).2 = ⟨cfg.next_id, joinNL buf, "statement".data⟩ ∧
      (⟨cur.id, cfg.next_id, none⟩ : Edge) ∈ (flushBuffer cfg cur buf).1.edges) := by
  refine ⟨?_, ?_, ?_, ?_⟩
  · intro fuel cfg cur lines i buf stk hi hb
    cases stk <;> simp +decide [processLines, hi, hb]
  · intro fuel cfg cur lines i buf stk hi hb
    cases stk <;> simp +decide [processLines, hi, hb]
  · intro fuel cfg cur lines i buf stk hi h0 h1 h2 h3 h4 h5 h6 h7 h8 h9
    simp [processLines, hi, h0, h1, h2, h3, h4, h5, h6, h7, h8, h9]
  · intro fuel cfg cur lines i buf stk hi hbuf hwf
    refine ⟨by simp [processLines, hi], by simp [flushBuffer, hbuf, addNode], ?_⟩
    have hfresh : ∀ e ∈ cfg.edges, ¬(e.source = cur.id ∧ e.target = cfg.next_id) := by
      intro e he hcon
      exact absurd hcon.2 (Nat.ne_of_lt (hwf.2 e he).2)
    simp only [flushBuffer, if_neg hbuf, addNode, addEdge]
    rw [addEdgeList_fresh _ _ _ _ hfresh]
    simp

/-- Witness for C8: the four step equations at concrete states. -/
theorem dead_code_after_break_still_wired_witness :
    processLines 1 emptyCFG ⟨0, [], []⟩ ["break;".data] 0 ["s;".data] [] =
      processLines 0 emptyCFG ⟨0, [], []⟩ ["break;".data] 1 ["s;".data] [] ∧
    processLines 1 emptyCFG ⟨0, [], []⟩ ["continue;".data] 0 [] [] =
      processLines 0 emptyCFG ⟨0, [], []⟩ ["continue;".data] 1 [] [] ∧
    processLines 1 emptyCFG ⟨0, [], []⟩ ["y = 2;".data] 0 [] [] =
      processLines 0 emptyCFG ⟨0, [], []⟩ ["y = 2;".data] 1 ["y = 2;".data] [] ∧
    processLines 1 ⟨[⟨0, [], []⟩], [], 1⟩ ⟨0, [], []⟩ [] 0 ["y = 2;".data] [] =
      some (flushBuffer ⟨[⟨0, [], []⟩], [], 1⟩ ⟨0, [], []⟩ ["y = 2;".data]) ∧
    (⟨0, 1, none⟩ : Edge) ∈
      (flushBuffer ⟨[⟨0, [], []⟩], [], 1⟩ ⟨0, [], []⟩ ["y = 2;".data]).1.edges := by
  refine ⟨?_, ?_, ?_, ?_, ?_⟩
  · exact dead_code_after_break_still_wired.1 0 emptyCFG ⟨0, [], []⟩ ["break;".data] 0
      ["s;".data] [] (by decide) (by decide)
  · exact dead_code_after_break_still_wired.2.1 0 emptyCFG ⟨0, [], []⟩ ["continue;".data] 0
      [] [] (by decide) (by decide)
  · have h := dead_code_after_break_still_wired.2.2.1 0 emptyCFG ⟨0, [], []⟩ ["y = 2;".data] 0
      [] [] (by decide) (by decide) (by decide) (by decide) (by decide) (by decide) (by decide)
      (by decide) (by decide) (by decide) (by decide)
    simpa using h
  · exact (dead_code_after_break_still_wired.2.2.2 0 ⟨[⟨0, [], []⟩], [], 1⟩ ⟨0, [], []⟩ [] 0
      ["y = 2;".data] [] (by decide) (by decide) (by constructor <;> simp +decide)).1
  · exact (dead_code_after_break_still_wired.2.2.2 0 ⟨[⟨0, [], []⟩], [], 1⟩ ⟨0, [], []⟩ [] 0
      ["y = 2;".data] [] (by decide) (by decide) (by constructor <;> simp +decide)).2.2

/-! ## Graph evolution invariant

`Grows g g' eid` records what a builder step starting at graph `g` with
current/entry node id `eid` can do to the graph: ids only grow, nodes are
never removed, and an edge whose source is neither `eid` nor a node
created after `g` is never touched again (every `add_edge` call of the
builder has such a source, so those edges survive every later step
unchanged — in particular their conditions are never upgraded). -/
def Grows (g g' : CFG) (eid : Nat) : Prop :=
  g.next_id ≤ g'.next_id ∧
  (∀ n ∈ g.nodes, n ∈ g'.nodes) ∧
  (∀ e ∈ g.edges, e.source ≠ eid → e.source < g.next_id → e ∈ g'.edges) ∧
  (∀ e ∈ g.edges, e.condition ≠ none → e ∈ g'.edges)

theorem addNode_fst_next (g : CFG) (c t : Str) : (addNode g c t).1.next_id = g.next_id + 1 :=
  rfl

theorem addNode_snd (g : CFG) (c t : Str) : (addNode g c t).2 = ⟨g.next_id, c, t⟩ := rfl

theorem addNode_fst_nodes (g : CFG) (c t : Str) :
    (addNode g c t).1.nodes = g.nodes ++ [⟨g.next_id, c, t⟩] := rfl

theorem addNode_fst_edges (g : CFG) (c t : Str) : (addNode g c t).1.edges = g.edges := rfl

theorem addEdge_next (g : CFG) (a b : Node) (c : Option Bool) :
    (addEdge g a b c).next_id = g.next_id := rfl

theorem addEdge_nodes (g : CFG) (a b : Node) (c : Option Bool) :
    (addEdge g a b c).nodes = g.nodes := rfl

theorem addEdge_edges (g : CFG) (a b : Node) (c : Option Bool) :
    (addEdge g a b c).edges = addEdgeList g.edges a.id b.id c := rfl

theorem addEdgeList_preserve {es : List Edge} {s t : Nat} {c : Option Bool} {e : Edge}
    (he : e ∈ es) (hne : ¬(e.source = s ∧ e.target = t)) : e ∈ addEdgeList es s t c := by
  induction es with
  | nil => cases he
  | cons e0 rest ih =>
    rcases List.mem_cons.1 he with h1 | h1
    · subst h1
      simp only [addEdgeList, if_neg hne]
      exact List.mem_cons_self _ _
    · simp only [addEdgeList]
      by_cases hp : e0.source = s ∧ e0.target = t
      · rw [if_pos hp]
        exact List.mem_cons_of_mem _ h1
      · rw [if_neg hp]
        exact List.mem_cons_of_mem _ (ih h1)

/-- An edge whose condition is already `true`/`false` is never modified by
a later `add_edge` call: the in-place upgrade only fires on a stored
`none` condition, and a matching pair never appends. -/
theorem addEdgeList_preserve_cond {es : List Edge} {s t : Nat} {c : Option Bool} {e : Edge}
    (he : e ∈ es) (hc : e.condition ≠ none) : e ∈ addEdgeList es s t c := by
  induction es with
  | nil => cases he
  | cons e0 rest ih =>
    rcases List.mem_cons.1 he with h1 | h1
    · subst h1
      simp only [addEdgeList]
      by_cases hp : e.source = s ∧ e.target = t
      · rw [if_pos hp, if_neg (fun hcc => hc hcc.1)]
        exact List.mem_cons_self _ _
      · rw [if_neg hp]
        exact List.mem_cons_self _ _
    · simp only [addEdgeList]
      by_cases hp : e0.source = s ∧ e0.target = t
      · rw [if_pos hp]
        exact List.mem_cons_of_mem _ h1
      · rw [if_neg hp]
        exact List.mem_cons_of_mem _ (ih h1)

/-- After `addEdgeList es s t c` an edge for the pair `(s, t)` is present
with some condition. -/
theorem addEdgeList_pair_mem (es : List Edge) (s t : Nat) (c : Option Bool) :
    ∃ b, (⟨s, t, b⟩ : Edge) ∈ addEdgeList es s t c := by
  induction es with
  | nil => exact ⟨c, List.mem_cons_self _ _⟩
  | cons e0 rest ih =>
    simp only [addEdgeList]
    by_cases hp : e0.source = s ∧ e0.target = t
    · rw [if_pos hp]
      by_cases hcc : e0.condition = none ∧ c ≠ none
      · rw [if_pos hcc]
        refine ⟨c, ?_⟩
        have : ({ e0 with condition := c } : Edge) = ⟨s, t, c⟩ := by
          rw [← hp.1, ← hp.2]
        rw [this]
        exact List.mem_cons_self _ _
      · rw [if_neg hcc]
        refine ⟨e0.condition, ?_⟩
        have : e0 = ⟨s, t, e0.condition⟩ := by
          rw [← hp.1, ← hp.2]
        rw [← this]
        exact List.mem_cons_self _ _
    · rw [if_neg hp]
      obtain ⟨b, hb⟩ := ih
      exact ⟨b, List.mem_cons_of_mem _ hb⟩

theorem grows_refl (g : CFG) (eid : Nat) : Grows g g eid :=
  ⟨Nat.le_refl _, fun _ h => h, fun _ h _ _ => h, fun _ h _ => h⟩

theorem grows_trans {g g1 g2 : CFG} {eid eid2 : Nat} (h1 : Grows g g1 eid)
    (h2 : Grows g1 g2 eid2) (he : eid2 = eid ∨ g.next_id ≤ eid2) : Grows g g2 eid := by
  refine ⟨Nat.le_trans h1.1 h2.1, fun n hn => h2.2.1 n (h1.2.1 n hn), ?_,
    fun e hmem hc => h2.2.2.2 e (h1.2.2.2 e hmem hc) hc⟩
  intro e hmem hne hlt
  have he1 : e ∈ g1.edges := h1.2.2.1 e hmem hne hlt
  have hne2 : e.source ≠ eid2 := by
    rcases he with rfl | hge
    · exact hne
    · omega
  exact h2.2.2.1 e he1 hne2 (Nat.lt_of_lt_of_le hlt h1.1)

theorem grows_addNode (g : CFG) (c t : Str) (eid : Nat) : Grows g (addNode g c t).1 eid := by
  refine ⟨Nat.le_succ _, ?_, fun e h _ _ => h, fun e h _ => h⟩
  intro n hn
  rw [addNode_fst_nodes]
  exact List.mem_append_left _ hn

theorem grows_addEdge_self (g : CFG) (a b : Node) (c : Option Bool) :
    Grows g (addEdge g a b c) a.id := by
  refine ⟨Nat.le_refl _, fun n h => h, ?_, ?_⟩
  · intro e hmem hne _
    rw [addEdge_edges]
    exact addEdgeList_preserve hmem (fun hc => hne hc.1)
  · intro e hmem hc
    rw [addEdge_edges]
    exact addEdgeList_preserve_cond hmem hc

theorem wf_addNode {g : CFG} (c t : Str) (h : WFCfg g) : WFCfg (addNode g c t).1 := by
  constructor
  · intro n hn
    rw [addNode_fst_nodes] at hn
    rcases List.mem_append.1 hn with h1 | h1
    · exact Nat.lt_succ_of_lt (h.1 n h1)
    · simp at h1
      subst h1
      exact Nat.lt_succ_self _
  · intro e he
    rw [addNode_fst_edges] at he
    have := h.2 e he
    rw [addNode_fst_next]
    omega

theorem wf_addEdge {g : CFG} {a b : Node} (c : Option Bool) (h : WFCfg g)
    (ha : a.id < g.next_id) (hb : b.id < g.next_id) : WFCfg (addEdge g a b c) := by
  refine ⟨h.1, ?_⟩
  intro e he
  rw [addEdge_edges] at he
  rcases mem_addEdgeList he with h1 | h1
  · exact h.2 e h1
  · rw [addEdge_next, h1.1, h1.2]
    exact ⟨ha, hb⟩

theorem flushBuffer_spec (g : CFG) (cur : Node) (buf : List Str) (hwf : WFCfg g)
    (hcur : cur.id < g.next_id) :
    Grows g (flushBuffer g cur buf).1 cur.id ∧ WFCfg (flushBuffer g cur buf).1 ∧
    ((flushBuffer g cur buf).2 = cur ∨ g.next_id ≤ (flushBuffer g cur buf).2.id) ∧
    (flushBuffer g cur buf).2.id < (flushBuffer g cur buf).1.next_id := by
  by_cases hb : buf = []
  · simp only [flushBuffer, if_pos hb]
    exact ⟨grows_refl g cur.id, hwf, by simp, hcur⟩
  · simp only [flushBuffer, if_neg hb]
    refine ⟨?_, ?_, ?_, ?_⟩
    · exact grows_trans (grows_addNode g _ _ cur.id)
        (grows_addEdge_self _ cur _ none) (Or.inl rfl)
    · exact wf_addEdge none (wf_addNode _ _ hwf) (by rw [addNode_fst_next]; omega)
        (by rw [addNode_snd, addNode_fst_next]; exact Nat.lt_succ_self _)
    · right
      rw [addNode_snd]
    · rw [addNode_snd, addEdge_next, addNode_fst_next]
      exact Nat.lt_succ_self _

/-- Ids mentioned by a loop-context stack are below `next_id`. -/
def StackBound (g : CFG) (stk : List LoopCtx) : Prop :=
  ∀ ctx ∈ stk, ctx.condition.id < g.next_id ∧ ctx.merge.id < g.next_id

/-! ## The invariant over the mutual recursion -/

/-- Invariant of `processCodeBlock` at a given fuel. -/
def PcbSpec (fuel : Nat) : Prop :=
  ∀ (cfg : CFG) (entry : Node) (block : Str) (cfg' : CFG) (last : Node),
    WFCfg cfg → entry.id < cfg.next_id →
    processCodeBlock fuel cfg entry block = some (cfg', last) →
    Grows cfg cfg' entry.id ∧ WFCfg cfg' ∧ (last = entry ∨ cfg.next_id ≤ last.id) ∧
      last.id < cfg'.next_id

/-- Invariant of `processLines` at a given fuel. -/
def LinesSpec (fuel : Nat) : Prop :=
  ∀ (cfg : CFG) (cur : Node) (lines : List Str) (i : Nat) (buf : List Str)
    (stk : List LoopCtx) (cfg' : CFG) (last : Node),
    WFCfg cfg → cur.id < cfg.next_id → StackBound cfg stk →
    processLines fuel cfg cur lines i buf stk = some (cfg', last) →
    Grows cfg cfg' cur.id ∧ WFCfg cfg' ∧ (last = cur ∨ cfg.next_id ≤ last.id) ∧
      last.id < cfg'.next_id

/-- Invariant of `ifCase` at a given fuel. -/
def IfSpec (fuel : Nat) : Prop :=
  ∀ (cfg : CFG) (cur : Node) (buf : List Str) (lines : List Str) (i : Nat)
    (cfg' : CFG) (cur' : Node) (i' : Nat),
    WFCfg cfg → cur.id < cfg.next_id →
    ifCase fuel cfg cur buf lines i = some (cfg', cur', i') →
    Grows cfg cfg' cur.id ∧ WFCfg cfg' ∧ (cur' = cur ∨ cfg.next_id ≤ cur'.id) ∧
      cur'.id < cfg'.next_id

/-- Invariant of a loop-construct branch (`forCase`, `whileCase`,
`doCase`) at a given fuel. -/
def CaseSpec
    (f : Nat → CFG → Node → List Str → List Str → Nat → List LoopCtx →
      Option (CFG × Node × Nat)) (fuel : Nat) : Prop :=
  ∀ (cfg : CFG) (cur : Node) (buf : List Str) (lines : List Str) (i : Nat)
    (stk : List LoopCtx) (cfg' : CFG) (cur' : Node) (i' : Nat),
    WFCfg cfg → cur.id < cfg.next_id →
    f fuel cfg cur buf lines i stk = some (cfg', cur', i') →
    Grows cfg cfg' cur.id ∧ WFCfg cfg' ∧ (cur' = cur ∨ cfg.next_id ≤ cur'.id) ∧
      cur'.id < cfg'.next_id


theorem ifBranch_grows {fuel : Nat} (hpcb : PcbSpec fuel) (g : CFG) (condN mergeN : Node)
    (label : Str) (cnd : Bool) (body : Str) (g' : CFG)
    (hwf : WFCfg g) (hcond : condN.id < g.next_id) (hmerge : mergeN.id < g.next_id)
    (hrun : ifBranch (fuel + 1) g condN mergeN label cnd body = some g') :
    Grows g g' condN.id ∧ WFCfg g' := by
  simp only [ifBranch] at hrun
  by_cases hbody : body = []
  · rw [if_neg (not_not_intro hbody)] at hrun
    have h := Option.some.inj hrun
    subst h
    exact ⟨grows_addEdge_self g condN mergeN (some cnd), wf_addEdge _ hwf hcond hmerge⟩
  · rw [if_pos hbody] at hrun
    cases hp : processCodeBlock fuel
        (addEdge (addNode g label "statement".data).1 condN
          (addNode g label "statement".data).2 (some cnd))
        (addNode g label "statement".data).2 body with
    | none =>
      rw [hp] at hrun
      cases hrun
    | some r =>
      obtain ⟨g3, last⟩ := r
      rw [hp] at hrun
      have h := Option.some.inj hrun
      subst h
      have hg2 : Grows g
          (addEdge (addNode g label "statement".data).1 condN
            (addNode g label "statement".data).2 (some cnd)) condN.id :=
        grows_trans (grows_addNode g _ _ condN.id)
          (grows_addEdge_self _ condN _ (some cnd)) (Or.inl rfl)
      have hwf2 : WFCfg (addEdge (addNode g label "statement".data).1 condN
          (addNode g label "statement".data).2 (some cnd)) := by
        refine wf_addEdge _ (wf_addNode _ _ hwf) ?_ ?_
        · rw [addNode_fst_next]
          omega
        · rw [addNode_snd, addNode_fst_next]
          exact Nat.lt_succ_self _
      obtain ⟨hg3, hwf3, hlast, hlastlt⟩ :=
        hpcb _ _ body g3 last hwf2
          (by rw [addNode_snd, addEdge_next, addNode_fst_next]; exact Nat.lt_succ_self _) hp
      have hg3' : Grows g g3 condN.id := by
        refine grows_trans hg2 hg3 ?_
        right
        rw [addNode_snd]
      have hmono : g.next_id + 1 ≤ g3.next_id := by
        have := hg3.1
        rw [addEdge_next, addNode_fst_next] at this
        exact this
      refine ⟨grows_trans hg3' (grows_addEdge_self g3 last mergeN none) ?_,
        wf_addEdge _ hwf3 hlastlt (by omega)⟩
      rcases hlast with h | h
      · right
        rw [h, addNode_snd]
      · right
        rw [addEdge_next, addNode_fst_next] at h
        omega

theorem whileBody_grows {fuel : Nat} (hpcb : PcbSpec fuel) (g : CFG) (condN : Node)
    (body : Str) (g' : CFG) (hwf : WFCfg g) (hcond : condN.id < g.next_id)
    (hrun : whileBody (fuel + 1) g condN body = some g') :
    Grows g g' condN.id ∧ WFCfg g' := by
  simp only [whileBody] at hrun
  by_cases hbody : body = []
  · rw [if_neg (not_not_intro hbody)] at hrun
    have h := Option.some.inj hrun
    subst h
    exact ⟨grows_addEdge_self g condN condN (some true), wf_addEdge _ hwf hcond hcond⟩
  · rw [if_pos hbody] at hrun
    cases hp : processCodeBlock fuel
        (addEdge (addNode g "While Loop Body Entry".data "statement".data).1 condN
          (addNode g "While Loop Body Entry".data "statement".data).2 (some true))
        (addNode g "While Loop Body Entry".data "statement".data).2 body with
    | none =>
      rw [hp] at hrun
      cases hrun
    | some r =>
      obtain ⟨g3, last⟩ := r
      rw [hp] at hrun
      have h := Option.some.inj hrun
      subst h
      have hg2 : Grows g
          (addEdge (addNode g "While Loop Body Entry".data "statement".data).1 condN
            (addNode g "While Loop Body Entry".data "statement".data).2 (some true)) condN.id :=
        grows_trans (grows_addNode g _ _ condN.id)
          (grows_addEdge_self _ condN _ (some true)) (Or.inl rfl)
      have hwf2 : WFCfg (addEdge (addNode g "While Loop Body Entry".data "statement".data).1
          condN (addNode g "While Loop Body Entry".data "statement".data).2 (some true)) := by
        refine wf_addEdge _ (wf_addNode _ _ hwf) ?_ ?_
        · rw [addNode_fst_next]
          omega
        · rw [addNode_snd, addNode_fst_next]
          exact Nat.lt_succ_self _
      obtain ⟨hg3, hwf3, hlast, hlastlt⟩ :=
        hpcb _ _ body g3 last hwf2
          (by rw [addNode_snd, addEdge_next, addNode_fst_next]; exact Nat.lt_succ_self _) hp
      have hg3' : Grows g g3 condN.id := by
        refine grows_trans hg2 hg3 ?_
        right
        rw [addNode_snd]
      have hmono : g.next_id + 1 ≤ g3.next_id := by
        have := hg3.1
        rw [addEdge_next, addNode_fst_next] at this
        exact this
      refine ⟨grows_trans hg3' (grows_addEdge_self g3 last condN none) ?_,
        wf_addEdge _ hwf3 hlastlt (by omega)⟩
      rcases hlast with h | h
      · right
        rw [h, addNode_snd]
      · right
        rw [addEdge_next, addNode_fst_next] at h
        omega

theorem forBody_grows {fuel : Nat} (hpcb : PcbSpec fuel) (g : CFG) (condN : Node)
    (updateExpr body : Str) (g' : CFG) (hwf : WFCfg g) (hcond : condN.id < g.next_id)
    (hrun : forBody (fuel + 1) g condN updateExpr body = some g') :
    Grows g g' condN.id ∧ WFCfg g' := by
  simp only [forBody] at hrun
  by_cases hbody : body = []
  · rw [if_neg (not_not_intro hbody)] at hrun
    by_cases hupd : updateExpr = []
    · rw [if_neg (not_not_intro hupd)] at hrun
      have h := Option.some.inj hrun
      subst h
      exact ⟨grows_addEdge_self g condN condN (some true), wf_addEdge _ hwf hcond hcond⟩
    · rw [if_pos hupd] at hrun
      have h := Option.some.inj hrun
      subst h
      have hg2 : Grows g
          (addEdge (addNode g updateExpr "statement".data).1 condN
            (addNode g updateExpr "statement".data).2 (some true)) condN.id :=
        grows_trans (grows_addNode g _ _ condN.id)
          (grows_addEdge_self _ condN _ (some true)) (Or.inl rfl)
      have hwf2 : WFCfg (addEdge (addNode g updateExpr "statement".data).1 condN
          (addNode g updateExpr "statement".data).2 (some true)) := by
        refine wf_addEdge _ (wf_addNode _ _ hwf) ?_ ?_
        · rw [addNode_fst_next]
          omega
        · rw [addNode_snd, addNode_fst_next]
          exact Nat.lt_succ_self _
      refine ⟨grows_trans hg2 (grows_addEdge_self _ _ condN none) ?_,
        wf_addEdge _ hwf2 ?_ ?_⟩
      · right
        rw [addNode_snd]
      · rw [addNode_snd, addEdge_next, addNode_fst_next]
        exact Nat.lt_succ_self _
      · rw [addEdge_next, addNode_fst_next]
        omega
  · rw [if_pos hbody] at hrun
    cases hp : processCodeBlock fuel
        (addEdge (addNode g "For Loop Body Entry".data "statement".data).1 condN
          (addNode g "For Loop Body Entry".data "statement".data).2 (some true))
        (addNode g "For Loop Body Entry".data "statement".data).2 body with
    | none =>
      rw [hp] at hrun
      cases hrun
    | some r =>
      obtain ⟨g3, last⟩ := r
      rw [hp] at hrun
      simp only [] at hrun
      have hg2 : Grows g
          (addEdge (addNode g "For Loop Body Entry".data "statement".data).1 condN
            (addNode g "For Loop Body Entry".data "statement".data).2 (some true)) condN.id :=
        grows_trans (grows_addNode g _ _ condN.id)
          (grows_addEdge_self _ condN _ (some true)) (Or.inl rfl)
      have hwf2 : WFCfg (addEdge (addNode g "For Loop Body Entry".data "statement".data).1
          condN (addNode g "For Loop Body Entry".data "statement".data).2 (some true)) := by
        refine wf_addEdge _ (wf_addNode _ _ hwf) ?_ ?_
        · rw [addNode_fst_next]
          omega
        · rw [addNode_snd, addNode_fst_next]
          exact Nat.lt_succ_self _
      obtain ⟨hg3, hwf3, hlast, hlastlt⟩ :=
        hpcb _ _ body g3 last hwf2
          (by rw [addNode_snd, addEdge_next, addNode_fst_next]; exact Nat.lt_succ_self _) hp
      have hg3' : Grows g g3 condN.id := by
        refine grows_trans hg2 hg3 ?_
        right
        rw [addNode_snd]
      have hmono : g.next_id + 1 ≤ g3.next_id := by
        have := hg3.1
        rw [addEdge_next, addNode_fst_next] at this
        exact this
      have hlast' : last.id = condN.id ∨ g.next_id ≤ last.id := by
        rcases hlast with h | h
        · right
          rw [h, addNode_snd]
        · right
          rw [addEdge_next, addNode_fst_next] at h
          omega
      by_cases hupd : updateExpr = []
      · rw [if_neg (not_not_intro hupd)] at hrun
        have h := Option.some.inj hrun
        subst h
        exact ⟨grows_trans hg3' (grows_addEdge_self g3 last condN none) hlast',
          wf_addEdge _ hwf3 hlastlt (by omega)⟩
      · rw [if_pos hupd] at hrun
        have h := Option.some.inj hrun
        subst h
        have hg4 : Grows g3
            (addEdge (addNode g3 updateExpr "statement".data).1 last
              (addNode g3 updateExpr "statement".data).2 none) last.id :=
          grows_trans (grows_addNode g3 _ _ last.id)
            (grows_addEdge_self _ last _ none) (Or.inl rfl)
        have hwf4 : WFCfg (addEdge (addNode g3 updateExpr "statement".data).1 last
            (addNode g3 updateExpr "statement".data).2 none) := by
          refine wf_addEdge _ (wf_addNode _ _ hwf3) ?_ ?_
          · rw [addNode_fst_next]
            omega
          · rw [addNode_snd, addNode_fst_next]
            exact Nat.lt_succ_self _
        have hg4' : Grows g
            (addEdge (addNode g3 updateExpr "statement".data).1 last
              (addNode g3 updateExpr "statement".data).2 none) condN.id :=
          grows_trans hg3' hg4 hlast'
        refine ⟨grows_trans hg4' (grows_addEdge_self _ _ condN none) ?_,
          wf_addEdge _ hwf4 ?_ ?_⟩
        · right
          rw [addNode_snd]
          show g.next_id ≤ g3.next_id
          omega
        · rw [addNode_snd, addEdge_next, addNode_fst_next]
          exact Nat.lt_succ_self _
        · rw [addEdge_next, addNode_fst_next]
          omega

/-- Invariant of `ifBranch` at a given fuel. -/
def IfBranchSpec (fuel : Nat) : Prop :=
  ∀ (g : CFG) (condN mergeN : Node) (label : Str) (cnd : Bool) (body : Str) (g' : CFG),
    WFCfg g → condN.id < g.next_id → mergeN.id < g.next_id →
    ifBranch fuel g condN mergeN label cnd body = some g' →
    Grows g g' condN.id ∧ WFCfg g'

/-- Invariant of `whileBody` at a given fuel. -/
def WhileBodySpec (fuel : Nat) : Prop :=
  ∀ (g : CFG) (condN : Node) (body : Str) (g' : CFG),
    WFCfg g → condN.id < g.next_id →
    whileBody fuel g condN body = some g' →
    Grows g g' condN.id ∧ WFCfg g'

/-- Invariant of `forBody` at a given fuel. -/
def ForBodySpec (fuel : Nat) : Prop :=
  ∀ (g : CFG) (condN : Node) (updateExpr body : Str) (g' : CFG),
    WFCfg g → condN.id < g.next_id →
    forBody fuel g condN updateExpr body = some g' →
    Grows g g' condN.id ∧ WFCfg g'

theorem ifCase_grows {fuel : Nat} (hbr : IfBranchSpec fuel) : IfSpec (fuel + 1) := by
  intro cfg cur buf lines i cfg' cur' i' hwf hcur hrun
  obtain ⟨hg0, hwf0, hc0, hlt0⟩ := flushBuffer_spec cfg cur buf hwf hcur
  have hc0' : (flushBuffer cfg cur buf).2.id = cur.id ∨
      cfg.next_id ≤ (flushBuffer cfg cur buf).2.id := hc0.imp (fun h => by rw [h]) id
  simp only [ifCase] at hrun
  cases hs : searchKwParen "if".data (strip (getLine lines i)) with
  | none =>
    rw [hs] at hrun
    simp only [Option.some.injEq, Prod.mk.injEq] at hrun
    obtain ⟨h1, h2, _⟩ := hrun
    subst h1
    subst h2
    exact ⟨hg0, hwf0, hc0, hlt0⟩
  | some grp =>
    rw [hs] at hrun
    simp only [] at hrun
    set g0 := (flushBuffer cfg cur buf).1 with hg0d
    set cur0 := (flushBuffer cfg cur buf).2 with hcur0d
    set p1 := addNode g0 (strip grp) "condition".data with hp1
    set g2 := addEdge p1.1 cur0 p1.2 none with hg2
    set p2 := addNode g2 "After If-Else (Merge Node)".data "merge".data with hp2
    have hcondid : p1.2.id = g0.next_id := by rw [hp1, addNode_snd]
    have hmergeid : p2.2.id = g0.next_id + 1 := by
      rw [hp2, addNode_snd, hg2, addEdge_next, hp1, addNode_fst_next]
    have hg3next : p2.1.next_id = g0.next_id + 2 := by
      rw [hp2, addNode_fst_next, hg2, addEdge_next, hp1, addNode_fst_next]
    have hgrow3 : Grows cfg p2.1 cur.id := by
      refine grows_trans (grows_trans (grows_trans hg0 (grows_addNode g0 _ _ cur.id)
        (Or.inl rfl)) (grows_addEdge_self p1.1 cur0 p1.2 none) hc0')
        (grows_addNode g2 _ _ cur.id) (Or.inl rfl)
    have hwf3 : WFCfg p2.1 := by
      refine wf_addNode _ _ (wf_addEdge _ (wf_addNode _ _ hwf0) ?_ ?_)
      · rw [hp1, addNode_fst_next]
        omega
      · rw [hcondid, hp1, addNode_fst_next]
        exact Nat.lt_succ_self _
    have hmono03 : cfg.next_id ≤ g0.next_id := hg0.1
    cases hb1 : ifBranch fuel p2.1 p1.2 p2.2 "If Branch Entry".data true
        (extractIfElseBlocks lines i).1 with
    | none =>
      rw [hb1] at hrun
      cases hrun
    | some cfg6 =>
      rw [hb1] at hrun
      simp only [] at hrun
      obtain ⟨hgrow6, hwf6⟩ := hbr p2.1 p1.2 p2.2 _ _ _ cfg6 hwf3
        (by rw [hcondid, hg3next]; omega) (by rw [hmergeid, hg3next]; omega) hb1
      have hmono36 : p2.1.next_id ≤ cfg6.next_id := hgrow6.1
      cases hb2 : ifBranch fuel cfg6 p1.2 p2.2 "Else Branch Entry".data false
          (extractIfElseBlocks lines i).2.1 with
      | none =>
        rw [hb2] at hrun
        cases hrun
      | some cfg9 =>
        rw [hb2] at hrun
        simp only [Option.some.injEq, Prod.mk.injEq] at hrun
        obtain ⟨h1, h2, _⟩ := hrun
        subst h1
        subst h2
        obtain ⟨hgrow9, hwf9⟩ := hbr cfg6 p1.2 p2.2 _ _ _ cfg9 hwf6
          (by rw [hcondid]; omega) (by rw [hmergeid]; omega) hb2
        have hmono69 : cfg6.next_id ≤ cfg9.next_id := hgrow9.1
        refine ⟨?_, hwf9, ?_, ?_⟩
        · refine grows_trans (grows_trans hgrow3 hgrow6 ?_) hgrow9 ?_
          · right
            rw [hcondid]
            omega
          · right
            rw [hcondid]
            omega
        · right
          rw [hmergeid]
          omega
        · rw [hmergeid]
          omega

theorem whileCase_grows {fuel : Nat} (hwb : WhileBodySpec fuel) : CaseSpec whileCase (fuel + 1) := by
  intro cfg cur buf lines i stk cfg' cur' i' hwf hcur hrun
  obtain ⟨hg0, hwf0, hc0, hlt0⟩ := flushBuffer_spec cfg cur buf hwf hcur
  have hc0' : (flushBuffer cfg cur buf).2.id = cur.id ∨
      cfg.next_id ≤ (flushBuffer cfg cur buf).2.id := hc0.imp (fun h => by rw [h]) id
  simp only [whileCase] at hrun
  cases hs : searchKwParen "while".data (strip (getLine lines i)) with
  | none =>
    rw [hs] at hrun
    simp only [Option.some.injEq, Prod.mk.injEq] at hrun
    obtain ⟨h1, h2, _⟩ := hrun
    subst h1
    subst h2
    exact ⟨hg0, hwf0, hc0, hlt0⟩
  | some grp =>
    rw [hs] at hrun
    simp only [] at hrun
    set g0 := (flushBuffer cfg cur buf).1 with hg0d
    set cur0 := (flushBuffer cfg cur buf).2 with hcur0d
    set p1 := addNode g0 (strip grp) "loop_condition".data with hp1
    set cfg1 := addEdge p1.1 cur0 p1.2 none with hcfg1
    set p2 := addNode cfg1 "After Loop (Merge Node)".data "merge".data with hp2
    set cfg2 := addEdge p2.1 p1.2 p2.2 (some false) with hcfg2
    have hcondid : p1.2.id = g0.next_id := by rw [hp1, addNode_snd]
    have hmergeid : p2.2.id = g0.next_id + 1 := by
      rw [hp2, addNode_snd, hcfg1, addEdge_next, hp1, addNode_fst_next]
    have hcfg2next : cfg2.next_id = g0.next_id + 2 := by
      rw [hcfg2, addEdge_next, hp2, addNode_fst_next, hcfg1, addEdge_next, hp1,
        addNode_fst_next]
    have hmono0 : cfg.next_id ≤ g0.next_id := hg0.1
    have hgrow2 : Grows cfg cfg2 cur.id := by
      refine grows_trans (grows_trans (grows_trans (grows_trans hg0
          (grows_addNode g0 _ _ cur.id) (Or.inl rfl))
          (grows_addEdge_self p1.1 cur0 p1.2 none) hc0')
          (grows_addNode cfg1 _ _ cur.id) (Or.inl rfl))
        (grows_addEdge_self p2.1 p1.2 p2.2 (some false)) ?_
      right
      rw [hcondid]
      omega
    have hwf2 : WFCfg cfg2 := by
      refine wf_addEdge _ (wf_addNode _ _ (wf_addEdge _ (wf_addNode _ _ hwf0) ?_ ?_)) ?_ ?_
      · rw [hp1, addNode_fst_next]
        omega
      · rw [hcondid, hp1, addNode_fst_next]
        exact Nat.lt_succ_self _
      · rw [hcondid, hp2, addNode_fst_next, hcfg1, addEdge_next, hp1, addNode_fst_next]
        omega
      · rw [hmergeid, hp2, addNode_fst_next, hcfg1, addEdge_next, hp1, addNode_fst_next]
        omega
    cases hb : whileBody fuel cfg2 p1.2 (extractLoopBody lines i).1 with
    | none =>
      rw [hb] at hrun
      cases hrun
    | some cfg5 =>
      rw [hb] at hrun
      simp only [Option.some.injEq, Prod.mk.injEq] at hrun
      obtain ⟨h1, h2, _⟩ := hrun
      subst h1
      subst h2
      obtain ⟨hgrow5, hwf5⟩ := hwb cfg2 p1.2 _ cfg5 hwf2 (by rw [hcondid, hcfg2next]; omega) hb
      have hmono25 : cfg2.next_id ≤ cfg5.next_id := hgrow5.1
      refine ⟨?_, hwf5, ?_, ?_⟩
      · refine grows_trans hgrow2 hgrow5 ?_
        right
        rw [hcondid]
        omega
      · right
        rw [hmergeid]
        omega
      · rw [hmergeid]
        omega


theorem forCase_grows {fuel : Nat} (hfb : ForBodySpec fuel) : CaseSpec forCase (fuel + 1) := by
  intro cfg cur buf lines i stk cfg' cur' i' hwf hcur hrun
  obtain ⟨hg0, hwf0, hc0, hlt0⟩ := flushBuffer_spec cfg cur buf hwf hcur
  have hc0' : (flushBuffer cfg cur buf).2.id = cur.id ∨
      cfg.next_id ≤ (flushBuffer cfg cur buf).2.id := hc0.imp (fun h => by rw [h]) id
  simp only [forCase] at hrun
  cases hs : searchFor (strip (getLine lines i)) with
  | none =>
    rw [hs] at hrun
    simp only [Option.some.injEq, Prod.mk.injEq] at hrun
    obtain ⟨h1, h2, _⟩ := hrun
    subst h1
    subst h2
    exact ⟨hg0, hwf0, hc0, hlt0⟩
  | some gr =>
    obtain ⟨g1, g2, g3⟩ := gr
    rw [hs] at hrun
    simp only [] at hrun
    set g0 := (flushBuffer cfg cur buf).1 with hg0d
    set cur0 := (flushBuffer cfg cur buf).2 with hcur0d
    have hmono0 : cfg.next_id ≤ g0.next_id := hg0.1
    generalize hiceq : (if strip g1 ≠ [] then
        (addEdge (addNode g0 (strip g1) "statement".data).1 cur0
           (addNode g0 (strip g1) "statement".data).2 none,
         (addNode g0 (strip g1) "statement".data).2)
       else (g0, cur0)) = icp at hrun
    have hicfacts : Grows cfg icp.1 cur.id ∧ WFCfg icp.1 ∧
        (icp.2.id = cur.id ∨ cfg.next_id ≤ icp.2.id) ∧ icp.2.id < icp.1.next_id ∧
        g0.next_id ≤ icp.1.next_id := by
      by_cases hinit : strip g1 = []
      · rw [if_neg (not_not_intro hinit)] at hiceq
        rw [← hiceq]
        exact ⟨hg0, hwf0, hc0', hlt0, Nat.le_refl _⟩
      · rw [if_pos hinit] at hiceq
        rw [← hiceq]
        refine ⟨?_, ?_, ?_, ?_, ?_⟩
        · exact grows_trans (grows_trans hg0 (grows_addNode g0 _ _ cur.id) (Or.inl rfl))
            (grows_addEdge_self _ cur0 _ none) hc0'
        · refine wf_addEdge _ (wf_addNode _ _ hwf0) ?_ ?_
          · rw [addNode_fst_next]
            omega
          · rw [addNode_snd, addNode_fst_next]
            exact Nat.lt_succ_self _
        · right
          rw [addNode_snd]
          show cfg.next_id ≤ g0.next_id
          omega
        · rw [addNode_snd, addEdge_next, addNode_fst_next]
          exact Nat.lt_succ_self _
        · rw [addEdge_next, addNode_fst_next]
          omega
    obtain ⟨hgrowI, hwfI, hcI, hltI, hmonoI⟩ := hicfacts
    set p1 := addNode icp.1 (if strip g2 = [] then "true".data else strip g2)
      "loop_condition".data with hp1
    set cfg1 := addEdge p1.1 icp.2 p1.2 none with hcfg1
    set p2 := addNode cfg1 "After For Loop (Merge Node)".data "merge".data with hp2
    set cfg2 := addEdge p2.1 p1.2 p2.2 (some false) with hcfg2
    have hcondid : p1.2.id = icp.1.next_id := by rw [hp1, addNode_snd]
    have hmergeid : p2.2.id = icp.1.next_id + 1 := by
      rw [hp2, addNode_snd, hcfg1, addEdge_next, hp1, addNode_fst_next]
    have hcfg2next : cfg2.next_id = icp.1.next_id + 2 := by
      rw [hcfg2, addEdge_next, hp2, addNode_fst_next, hcfg1, addEdge_next, hp1,
        addNode_fst_next]
    have hgrow2 : Grows cfg cfg2 cur.id := by
      refine grows_trans (grows_trans (grows_trans (grows_trans hgrowI
          (grows_addNode icp.1 _ _ cur.id) (Or.inl rfl))
          (grows_addEdge_self p1.1 icp.2 p1.2 none) hcI)
          (grows_addNode cfg1 _ _ cur.id) (Or.inl rfl))
        (grows_addEdge_self p2.1 p1.2 p2.2 (some false)) ?_
      right
      rw [hcondid]
      omega
    have hwf2 : WFCfg cfg2 := by
      refine wf_addEdge _ (wf_addNode _ _ (wf_addEdge _ (wf_addNode _ _ hwfI) ?_ ?_)) ?_ ?_
      · rw [hp1, addNode_fst_next]
        omega
      · rw [hcondid, hp1, addNode_fst_next]
        exact Nat.lt_succ_self _
      · rw [hcondid, hp2, addNode_fst_next, hcfg1, addEdge_next, hp1, addNode_fst_next]
        omega
      · rw [hmergeid, hp2, addNode_fst_next, hcfg1, addEdge_next, hp1, addNode_fst_next]
        omega
    cases hb : forBody fuel cfg2 p1.2 (strip g3) (extractLoopBody lines i).1 with
    | none =>
      rw [hb] at hrun
      cases hrun
    | some cfg6 =>
      rw [hb] at hrun
      simp only [Option.some.injEq, Prod.mk.injEq] at hrun
      obtain ⟨h1, h2, _⟩ := hrun
      subst h1
      subst h2
      obtain ⟨hgrow6, hwf6⟩ := hfb cfg2 p1.2 _ _ cfg6 hwf2
        (by rw [hcondid, hcfg2next]; omega) hb
      have hmono26 : cfg2.next_id ≤ cfg6.next_id := hgrow6.1
      refine ⟨?_, hwf6, ?_, ?_⟩
      · refine grows_trans hgrow2 hgrow6 ?_
        right
        rw [hcondid]
        omega
      · right
        rw [hmergeid]
        omega
      · rw [hmergeid]
        omega

theorem doCase_grows {fuel : Nat} (hpcb : PcbSpec fuel) : CaseSpec doCase (fuel + 1) := by
  intro cfg cur buf lines i stk cfg' cur' i' hwf hcur hrun
  obtain ⟨hg0, hwf0, hc0, hlt0⟩ := flushBuffer_spec cfg cur buf hwf hcur
  have hc0' : (flushBuffer cfg cur buf).2.id = cur.id ∨
      cfg.next_id ≤ (flushBuffer cfg cur buf).2.id := hc0.imp (fun h => by rw [h]) id
  simp only [doCase] at hrun
  set g0 := (flushBuffer cfg cur buf).1 with hg0d
  set cur0 := (flushBuffer cfg cur buf).2 with hcur0d
  have hmono0 : cfg.next_id ≤ g0.next_id := hg0.1
  set pe := addNode g0 "do".data "statement".data with hpe
  set cfg1 := addEdge pe.1 cur0 pe.2 none with hcfg1
  have hdoid : pe.2.id = g0.next_id := by rw [hpe, addNode_snd]
  have hcfg1next : cfg1.next_id = g0.next_id + 1 := by
    rw [hcfg1, addEdge_next, hpe, addNode_fst_next]
  have hgrow1 : Grows cfg cfg1 cur.id :=
    grows_trans (grows_trans hg0 (grows_addNode g0 _ _ cur.id) (Or.inl rfl))
      (grows_addEdge_self pe.1 cur0 pe.2 none) hc0'
  have hwf1 : WFCfg cfg1 := by
    refine wf_addEdge _ (wf_addNode _ _ hwf0) ?_ ?_
    · rw [hpe, addNode_fst_next]
      omega
    · rw [hdoid, hpe, addNode_fst_next]
      exact Nat.lt_succ_self _
  generalize hreq : (if (extractDoWhileBodyAndCondition lines i).1 ≠ [] then
      processCodeBlock fuel cfg1 pe.2 (extractDoWhileBodyAndCondition lines i).1
    else some (cfg1, pe.2)) = r at hrun
  cases r with
  | none => cases hrun
  | some p =>
    obtain ⟨cfg2, loopLast⟩ := p
    have hbody : Grows cfg1 cfg2 pe.2.id ∧ WFCfg cfg2 ∧
        (loopLast = pe.2 ∨ cfg1.next_id ≤ loopLast.id) ∧ loopLast.id < cfg2.next_id := by
      by_cases hb : (extractDoWhileBodyAndCondition lines i).1 = []
      · rw [if_neg (not_not_intro hb)] at hreq
        have h := Option.some.inj hreq
        obtain ⟨h1, h2⟩ := Prod.mk.injEq .. ▸ h
        subst h1
        subst h2
        exact ⟨grows_refl _ _, hwf1, Or.inl rfl, by rw [hdoid, hcfg1next]; omega⟩
      · rw [if_pos hb] at hreq
        exact hpcb cfg1 pe.2 _ cfg2 loopLast hwf1 (by rw [hdoid, hcfg1next]; omega) hreq
    obtain ⟨hgrow2, hwf2, hlast, hlastlt⟩ := hbody
    have hmono12 : cfg1.next_id ≤ cfg2.next_id := hgrow2.1
    have hgrow2' : Grows cfg cfg2 cur.id := by
      refine grows_trans hgrow1 hgrow2 ?_
      right
      rw [hdoid]
      omega
    have hlast' : loopLast.id = cur.id ∨ cfg.next_id ≤ loopLast.id := by
      rcases hlast with h | h
      · right
        rw [h, hdoid]
        omega
      · right
        omega
    simp only [] at hrun
    set pc := addNode cfg2
      (if (extractDoWhileBodyAndCondition lines i).2.1 = [] then "x < 5".data
       else (extractDoWhileBodyAndCondition lines i).2.1) "loop_condition".data with hpc
    set cfg3 := addEdge pc.1 loopLast pc.2 none with hcfg3
    set pm := addNode cfg3 "After Do-While Loop (Merge Node)".data "merge".data with hpm
    set cfg4 := addEdge pm.1 pc.2 pe.2 (some true) with hcfg4
    set cfg5 := addEdge cfg4 pc.2 pm.2 (some false) with hcfg5
    have hcondid : pc.2.id = cfg2.next_id := by rw [hpc, addNode_snd]
    have hmergeid : pm.2.id = cfg2.next_id + 1 := by
      rw [hpm, addNode_snd, hcfg3, addEdge_next, hpc, addNode_fst_next]
    have hfinnext : cfg5.next_id = cfg2.next_id + 2 := by
      rw [hcfg5, addEdge_next, hcfg4, addEdge_next, hpm, addNode_fst_next, hcfg3,
        addEdge_next, hpc, addNode_fst_next]
    simp only [Option.some.injEq, Prod.mk.injEq] at hrun
    obtain ⟨h1, h2, _⟩ := hrun
    subst h1
    subst h2
    have hgrow5 : Grows cfg cfg5 cur.id := by
      refine grows_trans (grows_trans (grows_trans (grows_trans (grows_trans hgrow2'
          (grows_addNode cfg2 _ _ cur.id) (Or.inl rfl))
          (grows_addEdge_self pc.1 loopLast pc.2 none) hlast')
          (grows_addNode cfg3 _ _ cur.id) (Or.inl rfl))
          (grows_addEdge_self pm.1 pc.2 pe.2 (some true)) ?_)
        (grows_addEdge_self cfg4 pc.2 pm.2 (some false)) ?_
      · right
        rw [hcondid]
        omega
      · right
        rw [hcondid]
        omega
    have hwf5 : WFCfg cfg5 := by
      refine wf_addEdge _ (wf_addEdge _ (wf_addNode _ _ (wf_addEdge _ (wf_addNode _ _ hwf2)
          ?_ ?_)) ?_ ?_) ?_ ?_
      · rw [hpc, addNode_fst_next]
        omega
      · rw [hcondid, hpc, addNode_fst_next]
        exact Nat.lt_succ_self _
      · rw [hcondid, hpm, addNode_fst_next, hcfg3, addEdge_next, hpc, addNode_fst_next]
        omega
      · rw [hdoid, hpm, addNode_fst_next, hcfg3, addEdge_next, hpc, addNode_fst_next]
        omega
      · rw [hcondid, hcfg4, addEdge_next, hpm, addNode_fst_next, hcfg3, addEdge_next,
          hpc, addNode_fst_next]
        omega
      · rw [hmergeid, hcfg4, addEdge_next, hpm, addNode_fst_next, hcfg3, addEdge_next,
          hpc, addNode_fst_next]
        omega
    refine ⟨hgrow5, hwf5, ?_, ?_⟩
    · right
      rw [hmergeid]
      omega
    · rw [hmergeid, hfinnext]
      omega

theorem stackBound_mono {g g' : CFG} {stk : List LoopCtx} (h : StackBound g stk)
    (hle : g.next_id ≤ g'.next_id) : StackBound g' stk := by
  intro ctx hctx
  have := h ctx hctx
  omega

theorem compose_case_rec {cfg c1 cfg' : CFG} {cur cu1 last : Node}
    (hgrow : Grows cfg c1 cur.id) (hcu : cu1 = cur ∨ cfg.next_id ≤ cu1.id)
    (hrec : Grows c1 cfg' cu1.id ∧ WFCfg cfg' ∧ (last = cu1 ∨ c1.next_id ≤ last.id) ∧
      last.id < cfg'.next_id) :
    Grows cfg cfg' cur.id ∧ WFCfg cfg' ∧ (last = cur ∨ cfg.next_id ≤ last.id) ∧
      last.id < cfg'.next_id := by
  obtain ⟨hg2, hwf2, hlast2, hlt2⟩ := hrec
  have hmono : cfg.next_id ≤ c1.next_id := hgrow.1
  refine ⟨?_, hwf2, ?_, hlt2⟩
  · refine grows_trans hgrow hg2 ?_
    rcases hcu with h | h
    · left
      rw [h]
    · right
      omega
  · rcases hlast2 with h | h
    · rcases hcu with h' | h'
      · left
        rw [h, h']
      · right
        rw [h]
        omega
    · right
      omega

theorem lines_grows {fuel : Nat} (hif : IfSpec fuel) (hfor : CaseSpec forCase fuel)
    (hwhile : CaseSpec whileCase fuel) (hdo : CaseSpec doCase fuel)
    (hlines : LinesSpec fuel) : LinesSpec (fuel + 1) := by
  intro cfg cur lines i buf stk cfg' last hwf hcur hstk hrun
  simp only [processLines] at hrun
  by_cases hi : i < lines.length
  case neg =>
    rw [if_neg hi] at hrun
    have h := Option.some.inj hrun
    obtain ⟨h1, h2⟩ := Prod.mk.injEq .. ▸ h
    subst h1
    subst h2
    obtain ⟨ha, hb, hc, hd⟩ := flushBuffer_spec cfg cur buf hwf hcur
    exact ⟨ha, hb, hc, hd⟩
  case pos =>
    rw [if_pos hi] at hrun
    by_cases h1 : strip (getLine lines i) = []
    · rw [if_pos h1] at hrun
      exact hlines cfg cur lines (i + 1) buf stk cfg' last hwf hcur hstk hrun
    · rw [if_neg h1] at hrun
      by_cases h2 : strip (getLine lines i) = "continue;".data
      · rw [if_pos h2] at hrun
        cases stk with
        | nil =>
          exact hlines cfg cur lines (i + 1) buf [] cfg' last hwf hcur hstk hrun
        | cons ctx rest =>
          simp only [] at hrun
          have hwf1 : WFCfg (addEdge cfg cur ctx.condition none) :=
            wf_addEdge _ hwf hcur (hstk ctx (List.mem_cons_self _ _)).1
          have hrec := hlines _ cur lines (i + 1) buf (ctx :: rest) cfg' last hwf1
            (by rw [addEdge_next]; exact hcur)
            (stackBound_mono hstk (by rw [addEdge_next])) hrun
          exact compose_case_rec (grows_addEdge_self cfg cur ctx.condition none)
            (Or.inl rfl) hrec
      · rw [if_neg h2] at hrun
        by_cases h3 : strip (getLine lines i) = "break;".data
        · rw [if_pos h3] at hrun
          cases stk with
          | nil =>
            exact hlines cfg cur lines (i + 1) buf [] cfg' last hwf hcur hstk hrun
          | cons ctx rest =>
            simp only [] at hrun
            have hwf1 : WFCfg (addEdge cfg cur ctx.merge none) :=
              wf_addEdge _ hwf hcur (hstk ctx (List.mem_cons_self _ _)).2
            have hrec := hlines _ cur lines (i + 1) buf (ctx :: rest) cfg' last hwf1
              (by rw [addEdge_next]; exact hcur)
              (stackBound_mono hstk (by rw [addEdge_next])) hrun
            exact compose_case_rec (grows_addEdge_self cfg cur ctx.merge none)
              (Or.inl rfl) hrec
        · rw [if_neg h3] at hrun
          by_cases h4 : "if".data.isPrefixOf (strip (getLine lines i)) = true
          · rw [if_pos h4] at hrun
            cases hic : ifCase fuel cfg cur buf lines i with
            | none =>
              rw [hic] at hrun
              cases hrun
            | some p =>
              obtain ⟨c1, cu1, i1⟩ := p
              rw [hic] at hrun
              simp only [] at hrun
              obtain ⟨hg1, hwf1, hcu1, hcu1lt⟩ := hif cfg cur buf lines i c1 cu1 i1 hwf hcur hic
              have hrec := hlines c1 cu1 lines i1 [] stk cfg' last hwf1 hcu1lt
                (stackBound_mono hstk hg1.1) hrun
              exact compose_case_rec hg1 hcu1 hrec
          · rw [if_neg h4] at hrun
            by_cases h5 : "for".data.isPrefixOf (strip (getLine lines i)) = true
            · rw [if_pos h5] at hrun
              cases hic : forCase fuel cfg cur buf lines i stk with
              | none =>
                rw [hic] at hrun
                cases hrun
              | some p =>
                obtain ⟨c1, cu1, i1⟩ := p
                rw [hic] at hrun
                simp only [] at hrun
                obtain ⟨hg1, hwf1, hcu1, hcu1lt⟩ :=
                  hfor cfg cur buf lines i stk c1 cu1 i1 hwf hcur hic
                have hrec := hlines c1 cu1 lines i1 [] stk cfg' last hwf1 hcu1lt
                  (stackBound_mono hstk hg1.1) hrun
                exact compose_case_rec hg1 hcu1 hrec
            · rw [if_neg h5] at hrun
              by_cases h6 : ("while".data.isPrefixOf (strip (getLine lines i)) &&
                  !("while(".data.isPrefixOf (strip (getLine lines i)))) = true
              · rw [if_pos h6] at hrun
                cases hic : whileCase fuel cfg cur buf lines i stk with
                | none =>
                  rw [hic] at hrun
                  cases hrun
                | some p =>
                  obtain ⟨c1, cu1, i1⟩ := p
                  rw [hic] at hrun
                  simp only [] at hrun
                  obtain ⟨hg1, hwf1, hcu1, hcu1lt⟩ :=
                    hwhile cfg cur buf lines i stk c1 cu1 i1 hwf hcur hic
                  have hrec := hlines c1 cu1 lines i1 [] stk cfg' last hwf1 hcu1lt
                    (stackBound_mono hstk hg1.1) hrun
                  exact compose_case_rec hg1 hcu1 hrec
              · rw [if_neg h6] at hrun
                by_cases h7 : "do".data.isPrefixOf (strip (getLine lines i)) = true
                · rw [if_pos h7] at hrun
                  cases hic : doCase fuel cfg cur buf lines i stk with
                  | none =>
                    rw [hic] at hrun
                    cases hrun
                  | some p =>
                    obtain ⟨c1, cu1, i1⟩ := p
                    rw [hic] at hrun
                    simp only [] at hrun
                    obtain ⟨hg1, hwf1, hcu1, hcu1lt⟩ :=
                      hdo cfg cur buf lines i stk c1 cu1 i1 hwf hcur hic
                    have hrec := hlines c1 cu1 lines i1 [] stk cfg' last hwf1 hcu1lt
                      (stackBound_mono hstk hg1.1) hrun
                    exact compose_case_rec hg1 hcu1 hrec
                · rw [if_neg h7] at hrun
                  by_cases h8 : ¬("else".data.isPrefixOf (strip (getLine lines i))) ∧
                      strip (getLine lines i) ≠ [lbrace] ∧ strip (getLine lines i) ≠ [rbrace]
                  · rw [if_pos h8] at hrun
                    exact hlines cfg cur lines (i + 1) (buf ++ [strip (getLine lines i)]) stk
                      cfg' last hwf hcur hstk hrun
                  · rw [if_neg h8] at hrun
                    exact hlines cfg cur lines (i + 1) buf stk cfg' last hwf hcur hstk hrun

theorem pcb_grows {fuel : Nat} (hlines : LinesSpec fuel) : PcbSpec (fuel + 1) := by
  intro cfg entry block cfg' last hwf hentry hrun
  simp only [processCodeBlock] at hrun
  by_cases hb : strip block = []
  · rw [if_pos hb] at hrun
    have h := Option.some.inj hrun
    obtain ⟨h1, h2⟩ := Prod.mk.injEq .. ▸ h
    subst h1
    subst h2
    exact ⟨grows_refl _ _, hwf, Or.inl rfl, hentry⟩
  · rw [if_neg hb] at hrun
    cases hsp : splitIntoStatements block with
    | none =>
      rw [hsp] at hrun
      cases hrun
    | some lines =>
      rw [hsp] at hrun
      exact hlines cfg entry lines 0 [] [] cfg' last hwf hentry (by intro ctx h; cases h) hrun

theorem spec_zero : PcbSpec 0 ∧ LinesSpec 0 ∧ IfBranchSpec 0 ∧ WhileBodySpec 0 ∧
    ForBodySpec 0 ∧ IfSpec 0 ∧ CaseSpec forCase 0 ∧ CaseSpec whileCase 0 ∧
    CaseSpec doCase 0 := by
  refine ⟨?_, ?_, ?_, ?_, ?_, ?_, ?_, ?_, ?_⟩
  · intro cfg entry block cfg1 last _ _ h
    simp [processCodeBlock] at h
  · intro cfg cur lines i buf stk cfg1 last _ _ _ h
    simp [processLines] at h
  · intro g cn mn lb cd bd g1 _ _ _ h
    simp [ifBranch] at h
  · intro g cn bd g1 _ _ h
    simp [whileBody] at h
  · intro g cn up bd g1 _ _ h
    simp [forBody] at h
  · intro cfg cur buf lines i cfg1 cur1 i1 _ _ h
    simp [ifCase] at h
  · intro cfg cur buf lines i stk cfg1 cur1 i1 _ _ h
    simp [forCase] at h
  · intro cfg cur buf lines i stk cfg1 cur1 i1 _ _ h
    simp [whileCase] at h
  · intro cfg cur buf lines i stk cfg1 cur1 i1 _ _ h
    simp [doCase] at h

/-- The graph-evolution invariant, proved for every fuel by induction over
the mutual recursion of the builder. -/
theorem builder_grows (fuel : Nat) : PcbSpec fuel ∧ LinesSpec fuel ∧ IfBranchSpec fuel ∧
    WhileBodySpec fuel ∧ ForBodySpec fuel ∧ IfSpec fuel ∧ CaseSpec forCase fuel ∧
    CaseSpec whileCase fuel ∧ CaseSpec doCase fuel := by
  induction fuel with
  | zero => exact spec_zero
  | succ f ih =>
    obtain ⟨hpcb, hlines, hibr, hwb, hfb, hif, hforc, hwhilec, hdoc⟩ := ih
    exact ⟨pcb_grows hlines, lines_grows hif hforc hwhilec hdoc hlines,
      fun g cn mn lb cd bd g' hw hc hm hr => ifBranch_grows hpcb g cn mn lb cd bd g' hw hc hm hr,
      fun g cn bd g' hw hc hr => whileBody_grows hpcb g cn bd g' hw hc hr,
      fun g cn up bd g' hw hc hr => forBody_grows hpcb g cn up bd g' hw hc hr,
      ifCase_grows hibr, forCase_grows hfb, whileCase_grows hwb, doCase_grows hpcb⟩

/-! ## C3 (amended): while-header handling -/

theorem whileBody_shape {fuel : Nat} (hpcb : PcbSpec fuel) (g : CFG) (condN : Node)
    (body : Str) (g' : CFG) (hwf : WFCfg g) (hcond : condN.id < g.next_id)
    (hnoself : ∀ e ∈ g.edges, ¬(e.source = condN.id ∧ e.target = condN.id))
    (hrun : whileBody (fuel + 1) g condN body = some g') :
    (body = [] → (⟨condN.id, condN.id, some true⟩ : Edge) ∈ g'.edges) ∧
    (body ≠ [] →
      (⟨g.next_id, "While Loop Body Entry".data, "statement".data⟩ : Node) ∈ g'.nodes ∧
      (⟨condN.id, g.next_id, some true⟩ : Edge) ∈ g'.edges ∧
      ∃ exitId b, (exitId = g.next_id ∨ g.next_id + 1 ≤ exitId) ∧
        (⟨exitId, condN.id, b⟩ : Edge) ∈ g'.edges) := by
  simp only [whileBody] at hrun
  by_cases hbody : body = []
  · rw [if_neg (not_not_intro hbody)] at hrun
    have h := Option.some.inj hrun
    subst h
    refine ⟨fun _ => ?_, fun hne => absurd hbody hne⟩
    rw [addEdge_edges, addEdgeList_fresh _ _ _ _ hnoself]
    simp
  · rw [if_pos hbody] at hrun
    cases hp : processCodeBlock fuel
        (addEdge (addNode g "While Loop Body Entry".data "statement".data).1 condN
          (addNode g "While Loop Body Entry".data "statement".data).2 (some true))
        (addNode g "While Loop Body Entry".data "statement".data).2 body with
    | none =>
      rw [hp] at hrun
      cases hrun
    | some r =>
      obtain ⟨g3, last⟩ := r
      rw [hp] at hrun
      have h := Option.some.inj hrun
      subst h
      have hwf2 : WFCfg (addEdge (addNode g "While Loop Body Entry".data "statement".data).1
          condN (addNode g "While Loop Body Entry".data "statement".data).2 (some true)) := by
        refine wf_addEdge _ (wf_addNode _ _ hwf) ?_ ?_
        · rw [addNode_fst_next]
          omega
        · rw [addNode_snd, addNode_fst_next]
          exact Nat.lt_succ_self _
      obtain ⟨hg3, hwf3, hlast, hlastlt⟩ :=
        hpcb _ _ body g3 last hwf2
          (by rw [addNode_snd, addEdge_next, addNode_fst_next]; exact Nat.lt_succ_self _) hp
      have hfreshTrue : ∀ e ∈ g.edges, ¬(e.source = condN.id ∧ e.target = g.next_id) := by
        intro e he hpair
        have := (hwf.2 e he).2
        omega
      have hg2edges : (addEdge (addNode g "While Loop Body Entry".data "statement".data).1
          condN (addNode g "While Loop Body Entry".data "statement".data).2
          (some true)).edges = g.edges ++ [⟨condN.id, g.next_id, some true⟩] := by
        simp only [addEdge_edges, addNode_snd, addNode_fst_edges]
        exact addEdgeList_fresh _ _ _ _ hfreshTrue
      have hedge3 : (⟨condN.id, g.next_id, some true⟩ : Edge) ∈ g3.edges := by
        refine hg3.2.2.2 _ ?_ (by simp)
        rw [hg2edges]
        simp
      refine ⟨fun h => absurd h hbody, fun _ => ⟨?_, ?_, ?_⟩⟩
      · rw [addEdge_nodes]
        refine hg3.2.1 _ ?_
        rw [addEdge_nodes, addNode_fst_nodes]
        simp
      · rw [addEdge_edges]
        exact addEdgeList_preserve_cond hedge3 (by simp)
      · obtain ⟨b, hb⟩ := addEdgeList_pair_mem g3.edges last.id condN.id none
        refine ⟨last.id, b, ?_, ?_⟩
        · rcases hlast with h | h
          · left
            rw [h, addNode_snd]
          · right
            rw [addEdge_next, addNode_fst_next] at h
            omega
        · rw [addEdge_edges]
          exact hb

/-- C3 (amended): a `while...` header token is handled as a while loop
only when whitespace separates the keyword from the parenthesis — the
dispatch requires the token not to start with `while(`, and a
`while(`-prefixed header token is buffered as a plain statement instead
(first conjunct).  When the while branch does fire and its condition
pattern matches, the handler creates a `loop_condition` node wired from
the then-current node, a merge node receiving a false-edge from the
condition, for a non-empty body a body-entry node with a true-edge from
the condition and a back-edge from the body's recursion exit to the
condition, for an empty body a self-loop true-edge, and returns the merge
node as the new current node (second conjunct). -/
theorem while_header_needs_space :
    (∀ (fuel : Nat) (cfg : CFG) (cur : Node) (lines : List Str) (i : Nat)
        (buf : List Str) (stk : List LoopCtx),
      i < lines.length →
      "while".data.isPrefixOf (strip (getLine lines i)) = true →
      "while(".data.isPrefixOf (strip (getLine lines i)) = true →
      strip (getLine lines i) ≠ "continue;".data →
      strip (getLine lines i) ≠ "break;".data →
      "if".data.isPrefixOf (strip (getLine lines i)) = false →
      "for".data.isPrefixOf (strip (getLine lines i)) = false →
      "do".data.isPrefixOf (strip (getLine lines i)) = false →
      "else".data.isPrefixOf (strip (getLine lines i)) = false →
      strip (getLine lines i) ≠ [lbrace] →
      strip (getLine lines i) ≠ [rbrace] →
      processLines (fuel + 1) cfg cur lines i buf stk =
        processLines fuel cfg cur lines (i + 1) (buf ++ [strip (getLine lines i)]) stk) ∧
    (∀ (fuel : Nat) (cfg : CFG) (cur : Node) (buf : List Str) (lines : List Str) (i : Nat)
        (stk : List LoopCtx) (cfg' : CFG) (cur' : Node) (i' : Nat) (grp : Str),
      WFCfg cfg → cur.id < cfg.next_id →
      searchKwParen "while".data (strip (getLine lines i)) = some grp →
      whileCase (fuel + 1) cfg cur buf lines i stk = some (cfg', cur', i') →
      (⟨(flushBuffer cfg cur buf).1.next_id, strip grp, "loop_condition".data⟩ : Node) ∈
        cfg'.nodes ∧
      (⟨(flushBuffer cfg cur buf).2.id, (flushBuffer cfg cur buf).1.next_id, none⟩ : Edge) ∈
        cfg'.edges ∧
      (⟨(flushBuffer cfg cur buf).1.next_id + 1, "After Loop (Merge Node)".data,
         "merge".data⟩ : Node) ∈ cfg'.nodes ∧
      (⟨(flushBuffer cfg cur buf).1.next_id, (flushBuffer cfg cur buf).1.next_id + 1,
         some false⟩ : Edge) ∈ cfg'.edges ∧
      cur' = ⟨(flushBuffer cfg cur buf).1.next_id + 1, "After Loop (Merge Node)".data,
        "merge".data⟩ ∧
      i' = (extractLoopBody lines i).2 ∧
      ((extractLoopBody lines i).1 = [] →
        (⟨(flushBuffer cfg cur buf).1.next_id, (flushBuffer cfg cur buf).1.next_id,
           some true⟩ : Edge) ∈ cfg'.edges) ∧
      ((extractLoopBody lines i).1 ≠ [] →
        (⟨(flushBuffer cfg cur buf).1.next_id + 2, "While Loop Body Entry".data,
           "statement".data⟩ : Node) ∈ cfg'.nodes ∧
        (⟨(flushBuffer cfg cur buf).1.next_id, (flushBuffer cfg cur buf).1.next_id + 2,
           some true⟩ : Edge) ∈ cfg'.edges ∧
        ∃ exitId b, (exitId = (flushBuffer cfg cur buf).1.next_id + 2 ∨
            (flushBuffer cfg cur buf).1.next_id + 3 ≤ exitId) ∧
          (⟨exitId, (flushBuffer cfg cur buf).1.next_id, b⟩ : Edge) ∈ cfg'.edges)) := by
  constructor
  · intro fuel cfg cur lines i buf stk hi hw hwp hcont hbrk hif hfor hdo helse hlb hrb
    have h0 : strip (getLine lines i) ≠ [] := by
      intro he
      rw [he] at hw
      exact absurd hw (by decide)
    simp [processLines, hi, h0, hcont, hbrk, hif, hfor, hw, hwp, hdo, helse, hlb, hrb]
  · intro fuel cfg cur buf lines i stk cfg' cur' i' grp hwf hcur hs hrun
    obtain ⟨hg0, hwf0, hc0, hlt0⟩ := flushBuffer_spec cfg cur buf hwf hcur
    simp only [whileCase] at hrun
    rw [hs] at hrun
    simp only [] at hrun
    set g0 := (flushBuffer cfg cur buf).1 with hg0d
    set cur0 := (flushBuffer cfg cur buf).2 with hcur0d
    set p1 := addNode g0 (strip grp) "loop_condition".data with hp1
    set cfg1 := addEdge p1.1 cur0 p1.2 none with hcfg1
    set p2 := addNode cfg1 "After Loop (Merge Node)".data "merge".data with hp2
    set cfg2 := addEdge p2.1 p1.2 p2.2 (some false) with hcfg2
    have hcond2 : p1.2 = ⟨g0.next_id, strip grp, "loop_condition".data⟩ := by
      rw [hp1, addNode_snd]
    have hmerge2 : p2.2 = ⟨g0.next_id + 1, "After Loop (Merge Node)".data, "merge".data⟩ := by
      rw [hp2, addNode_snd, hcfg1, addEdge_next, hp1, addNode_fst_next]
    have hcfg1edges : cfg1.edges = g0.edges ++ [⟨cur0.id, g0.next_id, none⟩] := by
      rw [hcfg1, hcond2]
      simp only [addEdge_edges, addNode_fst_edges, hp1]
      refine addEdgeList_fresh _ _ _ _ ?_
      intro e he hpair
      have := (hwf0.2 e he).2
      omega
    have hcfg2edges : cfg2.edges =
        g0.edges ++ [⟨cur0.id, g0.next_id, none⟩] ++
          [⟨g0.next_id, g0.next_id + 1, some false⟩] := by
      rw [hcfg2, hcond2, hmerge2]
      simp only [addEdge_edges, addNode_fst_edges, hp2, hcfg1edges]
      refine addEdgeList_fresh _ _ _ _ ?_
      intro e he hpair
      rcases List.mem_append.1 he with h | h
      · have := (hwf0.2 e h).2
        omega
      · simp at h
        rw [h] at hpair
        simp at hpair
    have hcfg2nodes : cfg2.nodes =
        g0.nodes ++ [⟨g0.next_id, strip grp, "loop_condition".data⟩] ++
          [⟨g0.next_id + 1, "After Loop (Merge Node)".data, "merge".data⟩] := by
      rw [hcfg2, hp2]
      simp only [addEdge_nodes, addNode_fst_nodes, hcfg1, addEdge_next, hp1,
        addNode_fst_next, addNode_fst_nodes]
    have hcfg2next : cfg2.next_id = g0.next_id + 2 := by
      rw [hcfg2, addEdge_next, hp2, addNode_fst_next, hcfg1, addEdge_next, hp1,
        addNode_fst_next]
    have hwf2 : WFCfg cfg2 := by
      constructor
      · intro n hn
        rw [hcfg2nodes] at hn
        rw [hcfg2next]
        rcases List.mem_append.1 hn with h | h
        · rcases List.mem_append.1 h with h' | h'
          · have := hwf0.1 n h'
            omega
          · simp at h'
            rw [h']
            show g0.next_id < g0.next_id + 2
            omega
        · simp at h
          rw [h]
          show g0.next_id + 1 < g0.next_id + 2
          omega
      · intro e he
        rw [hcfg2edges] at he
        rw [hcfg2next]
        rcases List.mem_append.1 he with h | h
        · rcases List.mem_append.1 h with h' | h'
          · have := hwf0.2 e h'
            omega
          · simp at h'
            rw [h']
            refine ⟨?_, ?_⟩
            · show cur0.id < g0.next_id + 2
              omega
            · show g0.next_id < g0.next_id + 2
              omega
        · simp at h
          rw [h]
          refine ⟨?_, ?_⟩
          · show g0.next_id < g0.next_id + 2
            omega
          · show g0.next_id + 1 < g0.next_id + 2
            omega
    have hnoself : ∀ e ∈ cfg2.edges, ¬(e.source = p1.2.id ∧ e.target = p1.2.id) := by
      intro e he hpair
      rw [hcond2] at hpair
      rw [hcfg2edges] at he
      rcases List.mem_append.1 he with h | h
      · rcases List.mem_append.1 h with h' | h'
        · have := (hwf0.2 e h').1
          simp at hpair
          omega
        · simp at h'
          rw [h'] at hpair
          simp at hpair
          omega
      · simp at h
        rw [h] at hpair
        simp at hpair
    cases hb : whileBody fuel cfg2 p1.2 (extractLoopBody lines i).1 with
    | none =>
      rw [hb] at hrun
      cases hrun
    | some cfg5 =>
      rw [hb] at hrun
      simp only [Option.some.injEq, Prod.mk.injEq] at hrun
      obtain ⟨h1, h2, h3⟩ := hrun
      subst h1
      cases fuel with
      | zero => simp [whileBody] at hb
      | succ f =>
        have hcondlt : p1.2.id < cfg2.next_id := by
          show g0.next_id < cfg2.next_id
          rw [hcfg2next]
          omega
        obtain ⟨hgrow5, hwf5⟩ := (builder_grows (f + 1)).2.2.2.1 cfg2 p1.2 _ cfg5 hwf2
          hcondlt hb
        have hshape := whileBody_shape (builder_grows f).1 cfg2 p1.2 _ cfg5 hwf2
          hcondlt hnoself hb
        have hcondid : p1.2.id = g0.next_id := by rw [hcond2]
        refine ⟨?_, ?_, ?_, ?_, by rw [← h2, hmerge2], h3.symm, ?_, ?_⟩
        · refine hgrow5.2.1 _ ?_
          rw [hcfg2nodes]
          simp
        · refine hgrow5.2.2.1 _ ?_ ?_ ?_
          · rw [hcfg2edges]
            simp
          · show cur0.id ≠ p1.2.id
            rw [hcondid]
            omega
          · show cur0.id < cfg2.next_id
            rw [hcfg2next]
            omega
        · refine hgrow5.2.1 _ ?_
          rw [hcfg2nodes]
          simp
        · refine hgrow5.2.2.2 _ ?_ (by simp)
          rw [hcfg2edges]
          simp
        · intro hbe
          have := hshape.1 hbe
          rw [hcondid] at this
          exact this
        · intro hbe
          obtain ⟨hn1, he1, exitId, b, hex, hback⟩ := hshape.2 hbe
          rw [hcfg2next] at hn1 hex
          rw [hcondid, hcfg2next] at he1
          rw [hcondid] at hback
          refine ⟨hn1, he1, exitId, b, ?_, hback⟩
          rcases hex with h | h
          · exact Or.inl h
          · right
            omega

def c3Base : CFG := ⟨[⟨0, "f".data, "statement".data⟩], [], 1⟩

def c3Cur : Node := ⟨0, "f".data, "statement".data⟩

def c3Lines : List Str := ["while (x < 5)".data, [lbrace], [rbrace]]

def c3Result : CFG :=
  ⟨[⟨0, "f".data, "statement".data⟩, ⟨1, "x < 5".data, "loop_condition".data⟩,
    ⟨2, "After Loop (Merge Node)".data, "merge".data⟩],
   [⟨0, 1, none⟩, ⟨1, 2, some false⟩, ⟨1, 1, some true⟩], 3⟩

/-- Witness for C3 (amended) at concrete states: a no-space
`while(x < 5)` token is buffered as a plain statement, and a spaced
`while (x < 5) \x7b \x7d` header is wired as condition node 1, merge node
2 with a false-edge, and a self-loop true-edge. -/
theorem while_header_needs_space_witness :
    (processLines 1 c3Base c3Cur ["while(x < 5)".data] 0 [] [] =
       processLines 0 c3Base c3Cur ["while(x < 5)".data] 1 ["while(x < 5)".data] []) ∧
    ((⟨1, "x < 5".data, "loop_condition".data⟩ : Node) ∈ c3Result.nodes ∧
     (⟨0, 1, none⟩ : Edge) ∈ c3Result.edges ∧
     (⟨1, 2, some false⟩ : Edge) ∈ c3Result.edges ∧
     (⟨1, 1, some true⟩ : Edge) ∈ c3Result.edges) := by
  constructor
  · exact while_header_needs_space.1 0 c3Base c3Cur ["while(x < 5)".data] 0 [] []
      (by decide) (by decide) (by decide) (by decide) (by decide) (by decide) (by decide)
      (by decide) (by decide) (by decide) (by decide)
  · have hwfb : WFCfg c3Base := by
      unfold WFCfg
      decide
    have h := while_header_needs_space.2 9 c3Base c3Cur [] c3Lines 0 [] c3Result
      ⟨2, "After Loop (Merge Node)".data, "merge".data⟩ 3 "x < 5".data hwfb
      (by decide) (by decide) (by decide)
    obtain ⟨ha, hb, hc, hd, _, _, hg, _⟩ := h
    exact ⟨by simpa using ha, by simpa using hb, by simpa using hd,
      by simpa using hg (by decide)⟩

/-! ## C7: for-header handling -/

theorem forBody_shape {fuel : Nat} (hpcb : PcbSpec fuel) (g : CFG) (condN : Node)
    (updateExpr body : Str) (g' : CFG) (hwf : WFCfg g) (hcond : condN.id < g.next_id)
    (hbody : body ≠ []) (hupd : updateExpr ≠ [])
    (hrun : forBody (fuel + 1) g condN updateExpr body = some g') :
    (⟨g.next_id, "For Loop Body Entry".data, "statement".data⟩ : Node) ∈ g'.nodes ∧
    (⟨condN.id, g.next_id, some true⟩ : Edge) ∈ g'.edges ∧
    ∃ exitId updId, (exitId = g.next_id ∨ g.next_id + 1 ≤ exitId) ∧ g.next_id < updId ∧
      (⟨updId, updateExpr, "statement".data⟩ : Node) ∈ g'.nodes ∧
      (⟨exitId, updId, none⟩ : Edge) ∈ g'.edges ∧
      (⟨updId, condN.id, none⟩ : Edge) ∈ g'.edges := by
  simp only [forBody] at hrun
  rw [if_pos hbody] at hrun
  cases hp : processCodeBlock fuel
      (addEdge (addNode g "For Loop Body Entry".data "statement".data).1 condN
        (addNode g "For Loop Body Entry".data "statement".data).2 (some true))
      (addNode g "For Loop Body Entry".data "statement".data).2 body with
  | none =>
    rw [hp] at hrun
    cases hrun
  | some r =>
    obtain ⟨g3, last⟩ := r
    rw [hp] at hrun
    simp only [] at hrun
    rw [if_pos hupd] at hrun
    have h := Option.some.inj hrun
    subst h
    have hwf2 : WFCfg (addEdge (addNode g "For Loop Body Entry".data "statement".data).1
        condN (addNode g "For Loop Body Entry".data "statement".data).2 (some true)) := by
      refine wf_addEdge _ (wf_addNode _ _ hwf) ?_ ?_
      · rw [addNode_fst_next]
        omega
      · rw [addNode_snd, addNode_fst_next]
        exact Nat.lt_succ_self _
    obtain ⟨hg3, hwf3, hlast, hlastlt⟩ :=
      hpcb _ _ body g3 last hwf2
        (by rw [addNode_snd, addEdge_next, addNode_fst_next]; exact Nat.lt_succ_self _) hp
    have hmono : g.next_id + 1 ≤ g3.next_id := by
      have := hg3.1
      rw [addEdge_next, addNode_fst_next] at this
      exact this
    have hg2edges : (addEdge (addNode g "For Loop Body Entry".data "statement".data).1
        condN (addNode g "For Loop Body Entry".data "statement".data).2
        (some true)).edges = g.edges ++ [⟨condN.id, g.next_id, some true⟩] := by
      simp only [addEdge_edges, addNode_snd, addNode_fst_edges]
      refine addEdgeList_fresh _ _ _ _ ?_
      intro e he hpair
      have := (hwf.2 e he).2
      omega
    have hedge3 : (⟨condN.id, g.next_id, some true⟩ : Edge) ∈ g3.edges := by
      refine hg3.2.2.2 _ ?_ (by simp)
      rw [hg2edges]
      simp
    have hg4edges : (addEdge (addNode g3 updateExpr "statement".data).1 last
        (addNode g3 updateExpr "statement".data).2 none).edges =
        g3.edges ++ [⟨last.id, g3.next_id, none⟩] := by
      simp only [addEdge_edges, addNode_snd, addNode_fst_edges]
      refine addEdgeList_fresh _ _ _ _ ?_
      intro e he hpair
      have := (hwf3.2 e he).2
      omega
    have hfinedges : (addEdge (addEdge (addNode g3 updateExpr "statement".data).1 last
        (addNode g3 updateExpr "statement".data).2 none)
        (addNode g3 updateExpr "statement".data).2 condN none).edges =
        g3.edges ++ [⟨last.id, g3.next_id, none⟩] ++ [⟨g3.next_id, condN.id, none⟩] := by
      rw [addEdge_edges, hg4edges]
      simp only [addNode_snd]
      refine addEdgeList_fresh _ _ _ _ ?_
      intro e he hpair
      rcases List.mem_append.1 he with h | h
      · have := (hwf3.2 e h).1
        omega
      · simp at h
        rw [h] at hpair
        simp at hpair
        omega
    refine ⟨?_, ?_, last.id, g3.next_id, ?_, by omega, ?_, ?_, ?_⟩
    · simp only [addEdge_nodes, addNode_fst_nodes]
      refine List.mem_append_left _ (hg3.2.1 _ ?_)
      rw [addEdge_nodes, addNode_fst_nodes]
      simp
    · rw [hfinedges]
      exact List.mem_append_left _ (List.mem_append_left _ hedge3)
    · rcases hlast with h | h
      · left
        rw [h, addNode_snd]
      · right
        rw [addEdge_next, addNode_fst_next] at h
        omega
    · simp only [addEdge_nodes, addNode_fst_nodes]
      simp
    · rw [hfinedges]
      simp
    · rw [hfinedges]
      simp

/-- C7: a `for(init;cond;update)` header with all three clauses non-empty
and a non-empty body is wired as: init statement node from the current
node, `loop_condition` node with a false-edge to the merge node and a
true-edge to a body-entry node, recursive body processing, an update node
fed by an edge from the body's exit and a back-edge from the update node
to the condition node, with the merge node becoming current (first
conjunct); and a `for` header whose condition clause is empty gets the
literal text `true` as its `loop_condition` node content (second
conjunct). -/
theorem for_header_wiring :
    (∀ (fuel : Nat) (cfg : CFG) (cur : Node) (buf : List Str) (lines : List Str) (i : Nat)
        (stk : List LoopCtx) (cfg' : CFG) (cur' : Node) (i' : Nat) (g1 g2 g3 : Str),
      WFCfg cfg → cur.id < cfg.next_id →
      searchFor (strip (getLine lines i)) = some (g1, g2, g3) →
      strip g1 ≠ [] → strip g2 ≠ [] → strip g3 ≠ [] →
      (extractLoopBody lines i).1 ≠ [] →
      forCase (fuel + 1) cfg cur buf lines i stk = some (cfg', cur', i') →
      (⟨(flushBuffer cfg cur buf).1.next_id, strip g1, "statement".data⟩ : Node) ∈
        cfg'.nodes ∧
      (⟨(flushBuffer cfg cur buf).2.id, (flushBuffer cfg cur buf).1.next_id, none⟩ : Edge) ∈
        cfg'.edges ∧
      (⟨(flushBuffer cfg cur buf).1.next_id + 1, strip g2, "loop_condition".data⟩ : Node) ∈
        cfg'.nodes ∧
      (⟨(flushBuffer cfg cur buf).1.next_id, (flushBuffer cfg cur buf).1.next_id + 1,
         none⟩ : Edge) ∈ cfg'.edges ∧
      (⟨(flushBuffer cfg cur buf).1.next_id + 2, "After For Loop (Merge Node)".data,
         "merge".data⟩ : Node) ∈ cfg'.nodes ∧
      (⟨(flushBuffer cfg cur buf).1.next_id + 1, (flushBuffer cfg cur buf).1.next_id + 2,
         some false⟩ : Edge) ∈ cfg'.edges ∧
      (⟨(flushBuffer cfg cur buf).1.next_id + 3, "For Loop Body Entry".data,
         "statement".data⟩ : Node) ∈ cfg'.nodes ∧
      (⟨(flushBuffer cfg cur buf).1.next_id + 1, (flushBuffer cfg cur buf).1.next_id + 3,
         some true⟩ : Edge) ∈ cfg'.edges ∧
      (∃ exitId updId,
        (exitId = (flushBuffer cfg cur buf).1.next_id + 3 ∨
          (flushBuffer cfg cur buf).1.next_id + 4 ≤ exitId) ∧
        (flushBuffer cfg cur buf).1.next_id + 3 < updId ∧
        (⟨updId, strip g3, "statement".data⟩ : Node) ∈ cfg'.nodes ∧
        (⟨exitId, updId, none⟩ : Edge) ∈ cfg'.edges ∧
        (⟨updId, (flushBuffer cfg cur buf).1.next_id + 1, none⟩ : Edge) ∈ cfg'.edges) ∧
      cur' = ⟨(flushBuffer cfg cur buf).1.next_id + 2, "After For Loop (Merge Node)".data,
        "merge".data⟩ ∧
      i' = (extractLoopBody lines i).2) ∧
    (∀ (fuel : Nat) (cfg : CFG) (cur : Node) (buf : List Str) (lines : List Str) (i : Nat)
        (stk : List LoopCtx) (cfg' : CFG) (cur' : Node) (i' : Nat) (g1 g2 g3 : Str),
      WFCfg cfg → cur.id < cfg.next_id →
      searchFor (strip (getLine lines i)) = some (g1, g2, g3) →
      strip g2 = [] →
      forCase (fuel + 1) cfg cur buf lines i stk = some (cfg', cur', i') →
      (⟨(if strip g1 = [] then (flushBuffer cfg cur buf).1.next_id
          else (flushBuffer cfg cur buf).1.next_id + 1), "true".data,
         "loop_condition".data⟩ : Node) ∈ cfg'.nodes) := by
  constructor
  · intro fuel cfg cur buf lines i stk cfg' cur' i' g1 g2 g3 hwf hcur hs hi1 hi2 hi3
      hbody hrun
    obtain ⟨hg0, hwf0, hc0, hlt0⟩ := flushBuffer_spec cfg cur buf hwf hcur
    simp only [forCase] at hrun
    rw [hs] at hrun
    simp only [] at hrun
    rw [if_pos hi1, if_neg hi2] at hrun
    set g0 := (flushBuffer cfg cur buf).1 with hg0d
    set cur0 := (flushBuffer cfg cur buf).2 with hcur0d
    set pI := addNode g0 (strip g1) "statement".data with hpI
    set gI := addEdge pI.1 cur0 pI.2 none with hgI
    set p1 := addNode gI (strip g2) "loop_condition".data with hp1
    set cfg1 := addEdge p1.1 pI.2 p1.2 none with hcfg1
    set p2 := addNode cfg1 "After For Loop (Merge Node)".data "merge".data with hp2
    set cfg2 := addEdge p2.1 p1.2 p2.2 (some false) with hcfg2
    have hinit2 : pI.2 = ⟨g0.next_id, strip g1, "statement".data⟩ := by
      rw [hpI, addNode_snd]
    have hgInext : gI.next_id = g0.next_id + 1 := by
      rw [hgI, addEdge_next, hpI, addNode_fst_next]
    have hcond2 : p1.2 = ⟨g0.next_id + 1, strip g2, "loop_condition".data⟩ := by
      rw [hp1, addNode_snd, hgInext]
    have hmerge2 : p2.2 =
        ⟨g0.next_id + 2, "After For Loop (Merge Node)".data, "merge".data⟩ := by
      rw [hp2, addNode_snd, hcfg1, addEdge_next, hp1, addNode_fst_next, hgInext]
    have hcfg2next : cfg2.next_id = g0.next_id + 3 := by
      rw [hcfg2, addEdge_next, hp2, addNode_fst_next, hcfg1, addEdge_next, hp1,
        addNode_fst_next, hgInext]
    have hgIedges : gI.edges = g0.edges ++ [⟨cur0.id, g0.next_id, none⟩] := by
      rw [hgI, hinit2]
      simp only [addEdge_edges, addNode_fst_edges, hpI]
      refine addEdgeList_fresh _ _ _ _ ?_
      intro e he hpair
      have := (hwf0.2 e he).2
      omega
    have hcfg1edges : cfg1.edges = g0.edges ++ [⟨cur0.id, g0.next_id, none⟩] ++
        [⟨g0.next_id, g0.next_id + 1, none⟩] := by
      rw [hcfg1, hinit2, hcond2]
      simp only [addEdge_edges, addNode_fst_edges, hp1, hgIedges]
      refine addEdgeList_fresh _ _ _ _ ?_
      intro e he hpair
      rcases List.mem_append.1 he with h | h
      · have := (hwf0.2 e h).2
        omega
      · simp at h
        rw [h] at hpair
        simp at hpair
    have hcfg2edges : cfg2.edges = g0.edges ++ [⟨cur0.id, g0.next_id, none⟩] ++
        [⟨g0.next_id, g0.next_id + 1, none⟩] ++
        [⟨g0.next_id + 1, g0.next_id + 2, some false⟩] := by
      rw [hcfg2, hcond2, hmerge2]
      simp only [addEdge_edges, addNode_fst_edges, hp2, hcfg1edges]
      refine addEdgeList_fresh _ _ _ _ ?_
      intro e he hpair
      rcases List.mem_append.1 he with h | h
      · rcases List.mem_append.1 h with h' | h'
        · have := (hwf0.2 e h').2
          omega
        · simp at h'
          rw [h'] at hpair
          simp at hpair
      · simp at h
        rw [h] at hpair
        simp at hpair
    have hcfg2nodes : cfg2.nodes = g0.nodes ++
        [⟨g0.next_id, strip g1, "statement".data⟩] ++
        [⟨g0.next_id + 1, strip g2, "loop_condition".data⟩] ++
        [⟨g0.next_id + 2, "After For Loop (Merge Node)".data, "merge".data⟩] := by
      rw [hcfg2, hp2]
      simp only [addEdge_nodes, addNode_fst_nodes, hcfg1, addEdge_next, hp1, hgI,
        addNode_fst_next, addNode_fst_nodes, hpI, addEdge_nodes]
    have hwf2 : WFCfg cfg2 := by
      constructor
      · intro n hn
        rw [hcfg2nodes] at hn
        rw [hcfg2next]
        rcases List.mem_append.1 hn with h | h
        · rcases List.mem_append.1 h with h' | h'
          · rcases List.mem_append.1 h' with h'' | h''
            · have := hwf0.1 n h''
              omega
            · simp at h''
              rw [h'']
              show g0.next_id < g0.next_id + 3
              omega
          · simp at h'
            rw [h']
            show g0.next_id + 1 < g0.next_id + 3
            omega
        · simp at h
          rw [h]
          show g0.next_id + 2 < g0.next_id + 3
          omega
      · intro e he
        rw [hcfg2edges] at he
        rw [hcfg2next]
        rcases List.mem_append.1 he with h | h
        · rcases List.mem_append.1 h with h' | h'
          · rcases List.mem_append.1 h' with h'' | h''
            · have := hwf0.2 e h''
              omega
            · simp at h''
              rw [h'']
              refine ⟨?_, ?_⟩
              · show cur0.id < g0.next_id + 3
                omega
              · show g0.next_id < g0.next_id + 3
                omega
          · simp at h'
            rw [h']
            refine ⟨?_, ?_⟩
            · show g0.next_id < g0.next_id + 3
              omega
            · show g0.next_id + 1 < g0.next_id + 3
              omega
        · simp at h
          rw [h]
          refine ⟨?_, ?_⟩
          · show g0.next_id + 1 < g0.next_id + 3
            omega
          · show g0.next_id + 2 < g0.next_id + 3
            omega
    cases hb : forBody fuel cfg2 p1.2 (strip g3) (extractLoopBody lines i).1 with
    | none =>
      rw [hb] at hrun
      cases hrun
    | some cfg6 =>
      rw [hb] at hrun
      simp only [Option.some.injEq, Prod.mk.injEq] at hrun
      obtain ⟨h1, h2, h3⟩ := hrun
      subst h1
      cases fuel with
      | zero => simp [forBody] at hb
      | succ f =>
        have hcondlt : p1.2.id < cfg2.next_id := by
          show gI.next_id < cfg2.next_id
          rw [hcfg2next, hgInext]
          omega
        obtain ⟨hgrow6, hwf6⟩ := (builder_grows (f + 1)).2.2.2.2.1 cfg2 p1.2 _ _ cfg6 hwf2
          hcondlt hb
        have hshape := forBody_shape (builder_grows f).1 cfg2 p1.2 _ _ cfg6 hwf2
          hcondlt hbody hi3 hb
        have hcondid : p1.2.id = g0.next_id + 1 := by rw [hcond2]
        obtain ⟨hn1, he1, exitId, updId, hex, hupdgt, hn2, he2, he3⟩ := hshape
        rw [hcfg2next] at hn1 hex hupdgt
        rw [hcondid, hcfg2next] at he1
        rw [hcondid] at he3
        refine ⟨?_, ?_, ?_, ?_, ?_, ?_, hn1, he1,
          ⟨exitId, updId, ?_, by omega, hn2, he2, he3⟩,
          by rw [← h2, hmerge2], h3.symm⟩
        · refine hgrow6.2.1 _ ?_
          rw [hcfg2nodes]
          simp
        · refine hgrow6.2.2.1 _ ?_ ?_ ?_
          · rw [hcfg2edges]
            simp
          · show cur0.id ≠ p1.2.id
            rw [hcondid]
            omega
          · show cur0.id < cfg2.next_id
            rw [hcfg2next]
            omega
        · refine hgrow6.2.1 _ ?_
          rw [hcfg2nodes]
          simp
        · refine hgrow6.2.2.1 _ ?_ ?_ ?_
          · rw [hcfg2edges]
            simp
          · show g0.next_id ≠ p1.2.id
            rw [hcondid]
            omega
          · show g0.next_id < cfg2.next_id
            rw [hcfg2next]
            omega
        · refine hgrow6.2.1 _ ?_
          rw [hcfg2nodes]
          simp
        · refine hgrow6.2.2.2 _ ?_ (by simp)
          rw [hcfg2edges]
          simp
        · rcases hex with h | h
          · exact Or.inl h
          · right
            omega
  · intro fuel cfg cur buf lines i stk cfg' cur' i' g1 g2 g3 hwf hcur hs hi2 hrun
    obtain ⟨hg0, hwf0, hc0, hlt0⟩ := flushBuffer_spec cfg cur buf hwf hcur
    simp only [forCase] at hrun
    rw [hs] at hrun
    simp only [] at hrun
    rw [if_pos hi2] at hrun
    set g0 := (flushBuffer cfg cur buf).1 with hg0d
    set cur0 := (flushBuffer cfg cur buf).2 with hcur0d
    generalize hiceq : (if strip g1 ≠ [] then
        (addEdge (addNode g0 (strip g1) "statement".data).1 cur0
           (addNode g0 (strip g1) "statement".data).2 none,
         (addNode g0 (strip g1) "statement".data).2)
       else (g0, cur0)) = icp at hrun
    have hicfacts : WFCfg icp.1 ∧ icp.2.id < icp.1.next_id ∧
        icp.1.next_id = (if strip g1 = [] then g0.next_id else g0.next_id + 1) := by
      by_cases hinit : strip g1 = []
      · rw [if_neg (not_not_intro hinit)] at hiceq
        rw [← hiceq, if_pos hinit]
        exact ⟨hwf0, hlt0, rfl⟩
      · rw [if_pos hinit] at hiceq
        rw [← hiceq, if_neg hinit]
        refine ⟨?_, ?_, ?_⟩
        · refine wf_addEdge _ (wf_addNode _ _ hwf0) ?_ ?_
          · rw [addNode_fst_next]
            omega
          · rw [addNode_snd, addNode_fst_next]
            exact Nat.lt_succ_self _
        · rw [addNode_snd, addEdge_next, addNode_fst_next]
          exact Nat.lt_succ_self _
        · rw [addEdge_next, addNode_fst_next]
    obtain ⟨hwfI, hltI, hnextI⟩ := hicfacts
    set p1 := addNode icp.1 "true".data "loop_condition".data with hp1
    set cfg1 := addEdge p1.1 icp.2 p1.2 none with hcfg1
    set p2 := addNode cfg1 "After For Loop (Merge Node)".data "merge".data with hp2
    set cfg2 := addEdge p2.1 p1.2 p2.2 (some false) with hcfg2
    have hnodeT : (⟨icp.1.next_id, "true".data, "loop_condition".data⟩ : Node) ∈
        cfg2.nodes := by
      rw [hcfg2, addEdge_nodes, hp2, addNode_fst_nodes, hcfg1, addEdge_nodes, hp1,
        addNode_fst_nodes]
      simp
    have hwf2 : WFCfg cfg2 := by
      refine wf_addEdge _ (wf_addNode _ _ (wf_addEdge _ (wf_addNode _ _ hwfI) ?_ ?_)) ?_ ?_
      · rw [hp1, addNode_fst_next]
        omega
      · rw [hp1, addNode_snd, addNode_fst_next]
        exact Nat.lt_succ_self _
      · rw [hp1, addNode_snd, hp2, addNode_fst_next, hcfg1, addEdge_next, hp1,
          addNode_fst_next]
        show icp.1.next_id < icp.1.next_id + 1 + 1
        omega
      · rw [hp2, addNode_snd, hcfg1, addEdge_next, hp1, addNode_fst_next]
        show icp.1.next_id + 1 < icp.1.next_id + 1 + 1
        omega
    cases hb : forBody fuel cfg2 p1.2 (strip g3) (extractLoopBody lines i).1 with
    | none =>
      rw [hb] at hrun
      cases hrun
    | some cfg6 =>
      rw [hb] at hrun
      simp only [Option.some.injEq, Prod.mk.injEq] at hrun
      obtain ⟨h1, h2, h3⟩ := hrun
      subst h1
      have hcondlt : p1.2.id < cfg2.next_id := by
        show icp.1.next_id < cfg2.next_id
        rw [hcfg2, addEdge_next, hp2, addNode_fst_next, hcfg1, addEdge_next, hp1,
          addNode_fst_next]
        omega
      obtain ⟨hgrow6, hwf6⟩ := (builder_grows fuel).2.2.2.2.1 cfg2 p1.2 _ _ cfg6 hwf2
        hcondlt hb
      rw [← hnextI]
      exact hgrow6.2.1 _ hnodeT

def c7Base : CFG := ⟨[⟨0, "f".data, "statement".data⟩], [], 1⟩

def c7Cur : Node := ⟨0, "f".data, "statement".data⟩

def c7Lines : List Str :=
  ["for (int i = 0; i < 10; i++)".data, [lbrace], "sum += i;".data, [rbrace]]

def c7Result : CFG :=
  ⟨[⟨0, "f".data, "statement".data⟩, ⟨1, "int i = 0".data, "statement".data⟩,
    ⟨2, "i < 10".data, "loop_condition".data⟩,
    ⟨3, "After For Loop (Merge Node)".data, "merge".data⟩,
    ⟨4, "For Loop Body Entry".data, "statement".data⟩,
    ⟨5, "sum += i;".data, "statement".data⟩, ⟨6, "i++".data, "statement".data⟩],
   [⟨0, 1, none⟩, ⟨1, 2, none⟩, ⟨2, 3, some false⟩, ⟨2, 4, some true⟩,
    ⟨4, 5, none⟩, ⟨5, 6, none⟩, ⟨6, 2, none⟩], 7⟩

def c7LinesB : List Str := ["for (;;)".data, [lbrace], [rbrace]]

def c7ResultB : CFG :=
  ⟨[⟨0, "f".data, "statement".data⟩, ⟨1, "true".data, "loop_condition".data⟩,
    ⟨2, "After For Loop (Merge Node)".data, "merge".data⟩],
   [⟨0, 1, none⟩, ⟨1, 2, some false⟩, ⟨1, 1, some true⟩], 3⟩

/-- Witness for C7 at concrete states: the header
`for (int i = 0; i < 10; i++)` with body `sum += i;` yields init node 1,
condition node 2, merge node 3 with a false-edge, body entry node 4 with a
true-edge, update node carrying `i++` fed from the body exit, and a
back-edge from the update node to the condition node; and `for (;;)`
yields a `loop_condition` node whose content is the literal `true`. -/
theorem for_header_wiring_witness :
    ((⟨1, "int i = 0".data, "statement".data⟩ : Node) ∈ c7Result.nodes ∧
     (⟨0, 1, none⟩ : Edge) ∈ c7Result.edges ∧
     (⟨2, "i < 10".data, "loop_condition".data⟩ : Node) ∈ c7Result.nodes ∧
     (⟨1, 2, none⟩ : Edge) ∈ c7Result.edges ∧
     (⟨2, 3, some false⟩ : Edge) ∈ c7Result.edges ∧
     (⟨2, 4, some true⟩ : Edge) ∈ c7Result.edges ∧
     (∃ exitId updId, (⟨updId, "i++".data, "statement".data⟩ : Node) ∈ c7Result.nodes ∧
       (⟨exitId, updId, none⟩ : Edge) ∈ c7Result.edges ∧
       (⟨updId, 2, none⟩ : Edge) ∈ c7Result.edges)) ∧
    (⟨1, "true".data, "loop_condition".data⟩ : Node) ∈ c7ResultB.nodes := by
  constructor
  · have hwfb : WFCfg c7Base := by
      unfold WFCfg
      decide
    have h := for_header_wiring.1 19 c7Base c7Cur [] c7Lines 0 [] c7Result
      ⟨3, "After For Loop (Merge Node)".data, "merge".data⟩ 4
      "int i = 0".data " i < 10".data " i++".data hwfb
      (by decide) (by decide) (by decide) (by decide) (by decide) (by decide) (by decide)
    obtain ⟨hn1, he1, hn2, he2, _, he3, _, he4, ⟨exitId, updId, _, _, hn3, he5, he6⟩,
      _, _⟩ := h
    exact ⟨by simpa using hn1, by simpa using he1, by simpa using hn2,
      by simpa using he2, by simpa using he3, by simpa using he4,
      ⟨exitId, updId, by simpa using hn3, by simpa using he5, by simpa using he6⟩⟩
  · have hwfb : WFCfg c7Base := by
      unfold WFCfg
      decide
    have h := for_header_wiring.2 19 c7Base c7Cur [] c7LinesB 0 [] c7ResultB
      ⟨2, "After For Loop (Merge Node)".data, "merge".data⟩ 3 [] [] [] hwfb
      (by decide) (by decide) (by decide) (by decide)
    simpa using h
